import Mathlib

/-!
A shallow embedding of `src/main.go` of the pcr-hash-table-rename tool.

The tool matches the tables of a reference SQLite database (human-readable
schema) against the tables of a target database (hashed schema) with a
three-strategy cascade, infers a column permutation for each matched pair,
and copies the target rows into an output database under the reference
schema.

Modelling conventions used throughout this file:
* a database handle is the ordered list of its user tables (`Database`);
  `SELECT * FROM [t] LIMIT n` is `List.take n` of the table's rows, and every
  cell value is already the string that Go's `fmt.Sprintf("%v", col)` would
  produce for it (matching compares those strings only);
* Go `map[string]int` value-frequency maps are represented by the list of
  values they were built from; the count of a key is `List.count`, the key
  set of the union of two maps is `List.dedup` of the concatenation, and a
  map is empty exactly when its value list is empty;
* Go `float64` scores are modelled as exact rationals (`ℚ`); a division of
  two integers is written `mkRat` (equal to `/` on `ℚ`, see
  `mkRat_eq_natCast_div` below) so that concrete scores evaluate;
* Go nil pointers and the `-1` index sentinel are modelled as `Option`;
* Go byte-wise string comparison and sorting are modelled with Lean's
  character-wise `String` order (they agree on the stringified cell values
  the tool compares).
-/

namespace PcrHashRename

/-- One table of a SQLite database as the engine sees it: its name, the text
of its `CREATE TABLE` statement recorded in `sqlite_master`, its column names
in the order `PRAGMA table_info` lists them, and all of its rows in natural
order, each cell stringified. -/
structure DBTable where
  name : String
  createStmt : String
  colNames : List String
  rows : List (List String)
deriving Repr, DecidableEq

/-- A database handle: the ordered list of its user tables. -/
abbrev Database := List DBTable

/-- Name lookup of a table inside a database. -/
def dbLookup (db : Database) (t : String) : Option DBTable :=
  db.find? (fun tb => tb.name == t)

/-- Model of `getFirstNRows` (main.go:710): `SELECT * FROM [t] LIMIT n` with all
cells stringified.  The Go function aborts on an engine error; it is only ever
called on tables obtained from the same database's catalog, where the query
succeeds, so the model returns the first `n` rows of the table (and `[]` for a
name that is absent). -/
def getFirstNRows (db : Database) (t : String) (n : Nat) : List (List String) :=
  (((dbLookup db t).map DBTable.rows).getD []).take n

/-- Model of `getColumnCount` (main.go:672): counts the rows returned by
`PRAGMA table_info([t])`, i.e. the number of columns. -/
def getColumnCount (db : Database) (t : String) : Nat :=
  ((dbLookup db t).map (fun tb => tb.colNames.length)).getD 0

/-- Model of `getColumnNames` (main.go:687): the `name` field of each
`PRAGMA table_info([t])` row, in order. -/
def getColumnNames (db : Database) (t : String) : List String :=
  ((dbLookup db t).map DBTable.colNames).getD []

/-- Model of `countRowsInTable` (main.go:743): `SELECT COUNT(*) FROM [t]`,
scanned into a Go `int`. -/
def countRowsInTable (db : Database) (t : String) : Int :=
  ((dbLookup db t).map (fun tb => (tb.rows.length : Int))).getD 0

/-- Model of `getCreateTableStatement` (main.go:752): reads the `sql` column of
`sqlite_master` for the table; returns an error (here `none`) when the name is
absent. -/
def getCreateTableStatement (db : Database) (t : String) : Option String :=
  (dbLookup db t).map DBTable.createStmt

/-- `TableInfo` (main.go:25): metadata and the first N sample rows of one
table.  `RowCount` is a Go `int`, hence `Int` here. -/
structure TableInfo where
  Name : String
  ColumnCount : Nat
  RowCount : Int
  FirstNRows : List (List String)
deriving Repr, DecidableEq

/-- `MatchResult` (main.go:34): a successful pairing, with the column index
mapping `origIdx -> hashedIdx` and the strategy (1, 2 or 3) that matched. -/
structure MatchResult where
  OrigTable : String
  HashedTable : String
  ColumnMapping : List Nat
  Strategy : Nat
deriving Repr, DecidableEq

/-- Lexicographic comparison of two character lists by code point; UTF-8 byte
order (what Go's string `<` and `sort.Strings` use) coincides with code-point
order, so this is the order the Go code sorts and compares by. -/
def charListLe : List Char → List Char → Bool
  | [], _ => true
  | _ :: _, [] => false
  | x :: xs, y :: ys =>
    if x.toNat < y.toNat then true
    else if y.toNat < x.toNat then false
    else charListLe xs ys

/-- String comparison `a <= b` in Go's byte-lexicographic order. -/
def strLe (a b : String) : Bool :=
  charListLe a.data b.data

/-- Model of Go's `strings.HasPrefix`. -/
def strHasPrefix (s p : String) : Bool :=
  s.data.take p.data.length == p.data

/-- Model of `getTableNames` (main.go:644): all user table names, always
excluding `sqlite_stat1`, and excluding `v1_`-prefixed names exactly when
`filterV1Tables` is true. -/
def getTableNames (db : Database) (filterV1Tables : Bool) : List String :=
  (db.map DBTable.name).filter (fun name =>
    name != "sqlite_stat1" && (!(strHasPrefix name "v1_") || !filterV1Tables))

/-- Model of `loadTables` (main.go:166): for each surviving table name, record
the column count, the row count and the first 10 rows. -/
def loadTables (db : Database) (filterV1 : Bool) : List TableInfo :=
  (getTableNames db filterV1).map (fun name =>
    { Name := name
      ColumnCount := getColumnCount db name
      RowCount := countRowsInTable db name
      FirstNRows := getFirstNRows db name 10 })

/-- Model of `buildColumnCountIndex` (main.go:187): the Go code builds a
`map[int][]*TableInfo` by appending each table to its column-count bucket in
catalog order; the bucket for `c` is therefore the in-order sublist of tables
whose column count is `c`. -/
def buildColumnCountIndex (tables : List TableInfo) : Nat → List TableInfo :=
  fun c => tables.filter (fun t => t.ColumnCount == c)

/-- `strSliceEqual` (main.go:763): length check plus element-wise string
equality. -/
def strSliceEqual (a b : List String) : Bool :=
  a.length == b.length && (a.zip b).all (fun p => p.1 == p.2)

/-- `sortedRows` (main.go:278): take up to `n` rows and sort the cell values
inside each row (Go `sort.Strings`, ascending lexicographic order). -/
def sortedRows (rows : List (List String)) (n : Nat) : List (List String) :=
  (rows.take n).map (fun row => row.insertionSort (fun a b => strLe a b = true))

/-- `trySortedRowMatch` (main.go:250): compare the first 3 rows, each with its
values sorted; a candidate is kept when it has the same number of sorted rows
and every sorted row agrees position-wise. -/
def trySortedRowMatch (orig : TableInfo) (candidates : List TableInfo) : List TableInfo :=
  let origSorted := sortedRows orig.FirstNRows 3
  if origSorted.length == 0 then []
  else
    candidates.filter (fun c =>
      let candSorted := sortedRows c.FirstNRows 3
      candSorted.length == origSorted.length &&
        (origSorted.zip candSorted).all (fun p => strSliceEqual p.1 p.2))

/-- The row-count distance `int(math.Abs(float64(orig.RowCount - c.RowCount)))`
used by `disambiguateByRowCount` (main.go:299, 301); exact for the integer row
counts involved. -/
def rowCountDiff (orig c : TableInfo) : Nat :=
  (orig.RowCount - c.RowCount).natAbs

/-- The scanning loop of `disambiguateByRowCount` (main.go:298-306): start from
the first candidate and replace the incumbent only on a strictly smaller
distance, so the first occurrence of the minimum wins. -/
def pickClosest {α : Type} (f : α → Nat) (best : α) (rest : List α) : α :=
  rest.foldl (fun b c => if f c < f b then c else b) best

/-- `disambiguateByRowCount` (main.go:294): closest row count, first occurrence
wins ties; `none` only on an empty candidate list. -/
def disambiguateByRowCount (orig : TableInfo) (candidates : List TableInfo) : Option TableInfo :=
  match candidates with
  | [] => none
  | best :: rest => some (pickClosest (rowCountDiff orig) best rest)

/-- `buildMultiset` (main.go:330): the value-frequency map over the cells of up
to `n` rows, represented by the flattened list of those cells (see the file
header). -/
def buildMultiset (rows : List (List String)) (n : Nat) : List String :=
  (rows.take n).flatten

/-- `jaccardSimilarity` (main.go:345) on two value-frequency maps, represented
by their value lists: both maps empty gives 1; otherwise iterate over the keys
present in either map and accumulate the smaller count into the intersection
and the larger into the union (the Go `if av < bv` branch), then divide. -/
def jaccardSimilarity (a b : List String) : ℚ :=
  if a.isEmpty && b.isEmpty then 1
  else
    let allKeys := (a ++ b).dedup
    let intersection := (allKeys.map (fun k => if a.count k < b.count k then a.count k else b.count k)).sum
    let uni := (allKeys.map (fun k => if a.count k < b.count k then b.count k else a.count k)).sum
    if uni = 0 then 0 else mkRat (intersection : Int) uni

/-- One iteration of the `bestScore`/`bestCandidate` scanning pattern the Go
code uses three times (main.go:317-324, 401-422, 487-497): skip an excluded
item, otherwise keep it exactly when its score strictly beats the best so
far. -/
def bestScanStep {α : Type} (score : α → ℚ) (skip : α → Bool) (acc : Option α × ℚ) (c : α) :
    Option α × ℚ :=
  if skip c then acc
  else if score c > acc.2 then (some c, score c) else acc

/-- The full scanning loop: fold `bestScanStep` from no candidate and the given
initial best score (0 for the strategies, the 0.3 threshold in Pass B). -/
def bestScanLoop {α : Type} (score : α → ℚ) (skip : α → Bool) (threshold : ℚ)
    (items : List α) : Option α × ℚ :=
  items.foldl (bestScanStep score skip) (none, threshold)

/-- The score `tryMultisetMatch` computes for one candidate (main.go:318-319):
Jaccard similarity of the value multisets of the first 10 sample rows. -/
def strategy2Score (orig c : TableInfo) : ℚ :=
  jaccardSimilarity (buildMultiset orig.FirstNRows 10) (buildMultiset c.FirstNRows 10)

/-- `tryMultisetMatch` (main.go:311): best multiset-Jaccard candidate and its
score; the Go `hashDB` parameter is unused there and kept here for fidelity. -/
def tryMultisetMatch (orig : TableInfo) (candidates : List TableInfo) (_hashDB : Database) :
    Option TableInfo × ℚ :=
  bestScanLoop (strategy2Score orig) (fun _ => false) 0 candidates

/-- The distinctive-value set of `tryFingerprintMatch` (main.go:382-392): all
cell values of length strictly greater than 4 from up to 50 reference rows,
as a set (`dedup`). -/
def strategy3Fingerprints (origDB : Database) (orig : TableInfo) : List String :=
  ((getFirstNRows origDB orig.Name 50).flatten.filter (fun v => v.length > 4)).dedup

/-- The value set of one candidate in `tryFingerprintMatch` (main.go:402-408):
all cell values from up to 200 target rows, as a set. -/
def strategy3CandValues (hashDB : Database) (c : TableInfo) : List String :=
  ((getFirstNRows hashDB c.Name 200).flatten).dedup

/-- The hit ratio of one candidate in `tryFingerprintMatch` (main.go:410-417):
the number of fingerprints found among the candidate's values, divided by the
number of fingerprints. -/
def strategy3Ratio (hashDB : Database) (fingerprints : List String) (c : TableInfo) : ℚ :=
  mkRat ((fingerprints.filter (fun fp => (strategy3CandValues hashDB c).contains fp)).length : Int)
    fingerprints.length

/-- `tryFingerprintMatch` (main.go:380): nothing when the fingerprint set is
empty; otherwise the best-ratio candidate, accepted only when its ratio is
strictly greater than 0.1. -/
def tryFingerprintMatch (orig : TableInfo) (candidates : List TableInfo)
    (origDB hashDB : Database) : Option TableInfo :=
  let fingerprints := strategy3Fingerprints origDB orig
  if fingerprints.isEmpty then none
  else
    let best := bestScanLoop (strategy3Ratio hashDB fingerprints) (fun _ => false) 0 candidates
    if best.2 > mkRat 1 10 then best.1 else none

/-- `buildColumnVectors` (main.go:535): transpose row data into per-column
value vectors; a row shorter than `colCount` contributes nothing to the
columns beyond its end. -/
def buildColumnVectors (rows : List (List String)) (colCount : Nat) : List (List String) :=
  (List.range colCount).map (fun j => rows.filterMap (fun r => r[j]?))

/-- One iteration of the exact-equality pass of `inferColumnMapping`
(main.go:462-476): for an unmapped reference column `i`, take the first unused
target column `j` with an element-wise equal value vector.  The mapping is a
list of `Option Nat` (Go uses `-1` for unassigned), `used` a list of `Bool`. -/
def passAStep (origCols hashCols : List (List String)) (colCount : Nat)
    (st : List (Option Nat) × List Bool) (i : Nat) : List (Option Nat) × List Bool :=
  if (st.1.getD i none).isSome then st
  else
    match (List.range colCount).find? (fun j =>
        !(st.2.getD j false) && strSliceEqual (origCols.getD i []) (hashCols.getD j [])) with
    | some j => (st.1.set i (some j), st.2.set j true)
    | none => st

/-- The exact-equality pass (main.go:462-476), iterating the reference columns
in ascending order from the all-unassigned state. -/
def passA (origCols hashCols : List (List String)) (colCount : Nat) :
    List (Option Nat) × List Bool :=
  (List.range colCount).foldl (passAStep origCols hashCols colCount)
    (List.replicate colCount none, List.replicate colCount false)

/-- The inner best-candidate scan of the frequency-Jaccard pass
(main.go:484-497): `bestJ` starts at `-1` (here `none`) and `bestSim` at the
0.3 threshold; used target columns are skipped, and only a similarity strictly
above the best so far replaces it. -/
def passBSelect (origCols hashCols : List (List String)) (used : List Bool)
    (colCount i : Nat) : Option Nat × ℚ :=
  bestScanLoop (fun j => jaccardSimilarity (origCols.getD i []) (hashCols.getD j []))
    (fun j => used.getD j false) (mkRat 3 10) (List.range colCount)

/-- One iteration of the frequency-Jaccard pass of `inferColumnMapping`
(main.go:479-503): for a still-unmapped reference column `i`, assign the
selected target column, if any, and mark it used. -/
def passBStep (origCols hashCols : List (List String)) (colCount : Nat)
    (st : List (Option Nat) × List Bool) (i : Nat) : List (Option Nat) × List Bool :=
  if (st.1.getD i none).isSome then st
  else
    match (passBSelect origCols hashCols st.2 colCount i).1 with
    | some j => (st.1.set i (some j), st.2.set j true)
    | none => st

/-- The frequency-Jaccard pass (main.go:479-503), iterating the reference
columns in ascending order. -/
def passB (origCols hashCols : List (List String)) (colCount : Nat)
    (st : List (Option Nat) × List Bool) : List (Option Nat) × List Bool :=
  (List.range colCount).foldl (passBStep origCols hashCols colCount) st

/-- The assignment loop of the elimination pass (main.go:519-521):
`mapping[unmappedOrig[k]] = unmappedHash[k]` for each `k`. -/
def assignPairs : List (Option Nat) → List (Nat × Nat) → List (Option Nat)
  | m, [] => m
  | m, p :: rest => assignPairs (m.set p.1 (some p.2)) rest

/-- The elimination pass of `inferColumnMapping` (main.go:505-522): collect the
still-unmapped reference columns and still-unused target columns in ascending
order and, when the two lists have equal length, pair them positionally. -/
def elimination (st : List (Option Nat) × List Bool) (colCount : Nat) : List (Option Nat) :=
  let unmappedOrig := (List.range colCount).filter (fun i => (st.1.getD i none).isNone)
  let unmappedHash := (List.range colCount).filter (fun j => !(st.2.getD j false))
  if unmappedOrig.length == unmappedHash.length then
    assignPairs st.1 (unmappedOrig.zip unmappedHash)
  else st.1

/-- The identity-fallback fill of `inferColumnMapping` (main.go:524-529): every
still-unassigned entry `i` becomes `i`. -/
def fillIdentity (m : List (Option Nat)) : List Nat :=
  (List.range m.length).map (fun i => (m.getD i none).getD i)

/-- The mapping state after the three evidence-based passes (exact equality,
frequency Jaccard, elimination) of `inferColumnMapping`, before the identity
fill. -/
def mappingAfterElimination (origRows hashRows : List (List String)) (colCount : Nat) :
    List (Option Nat) :=
  let origCols := buildColumnVectors origRows colCount
  let hashCols := buildColumnVectors hashRows colCount
  elimination (passB origCols hashCols colCount (passA origCols hashCols colCount)) colCount

/-- The body of `inferColumnMapping` (main.go:449-531) for the branch where the
two column counts agree. -/
def inferColumnMappingCore (origRows hashRows : List (List String)) (colCount : Nat) : List Nat :=
  fillIdentity (mappingAfterElimination origRows hashRows colCount)

/-- `inferColumnMapping` (main.go:432): sample up to 200 rows of each table;
on a column-count mismatch fall back to the identity mapping of the reference
column count, otherwise run the passes. -/
def inferColumnMapping (origDB hashDB : Database) (origTable hashTable : String) : List Nat :=
  let origRows := getFirstNRows origDB origTable 200
  let hashRows := getFirstNRows hashDB hashTable 200
  let origColCount := getColumnCount origDB origTable
  let hashColCount := getColumnCount hashDB hashTable
  if origColCount != hashColCount then List.range origColCount
  else inferColumnMappingCore origRows hashRows origColCount

/-- The `MatchResult` construction repeated in `matchTable` (main.go:201-243):
record the pair of names, infer the column mapping, tag the strategy. -/
def mkMatch (origDB hashDB : Database) (orig c : TableInfo) (strat : Nat) : MatchResult :=
  { OrigTable := orig.Name
    HashedTable := c.Name
    ColumnMapping := inferColumnMapping origDB hashDB orig.Name c.Name
    Strategy := strat }

/-- Strategy 3 of `matchTable` (main.go:234-244). -/
def matchTableStrategy3 (orig : TableInfo) (candidates : List TableInfo)
    (origDB hashDB : Database) : Option MatchResult :=
  match tryFingerprintMatch orig candidates origDB hashDB with
  | some c => some (mkMatch origDB hashDB orig c 3)
  | none => none

/-- Strategies 2 and 3 of `matchTable` (main.go:222-244): accept the best
multiset candidate when it exists and its score is at least 0.5, otherwise try
fingerprinting. -/
def matchTableFallback (orig : TableInfo) (candidates : List TableInfo)
    (origDB hashDB : Database) : Option MatchResult :=
  match tryMultisetMatch orig candidates hashDB with
  | (some c, s) =>
    if mkRat 1 2 ≤ s then some (mkMatch origDB hashDB orig c 2)
    else matchTableStrategy3 orig candidates origDB hashDB
  | (none, _) => matchTableStrategy3 orig candidates origDB hashDB

/-- `matchTable` (main.go:196): the three-strategy cascade.  A unique sorted-row
match wins immediately; several matches are disambiguated by row count (which
never fails on a nonempty list, but the Go code guards for nil and falls
through); otherwise strategies 2 and 3 run. -/
def matchTable (orig : TableInfo) (candidates : List TableInfo)
    (origDB hashDB : Database) : Option MatchResult :=
  match trySortedRowMatch orig candidates with
  | [m] => some (mkMatch origDB hashDB orig m 1)
  | [] => matchTableFallback orig candidates origDB hashDB
  | ms =>
    match disambiguateByRowCount orig ms with
    | some best => some (mkMatch origDB hashDB orig best 1)
    | none => matchTableFallback orig candidates origDB hashDB

/-- One primitive action issued against the output database by the row copier. -/
inductive DBAction where
  | exec (sqlText : String)
  | beginTx
  | insertRow (table : String) (vals : List String)
  | commitTx
deriving Repr, DecidableEq

/-- The `selectCols` construction of `copyData` (main.go:569-576): for each
reference index, the name of the target column the mapping points at, falling
back to the column at the reference index when the mapped index is out of
range (the Go guard `hashIdx >= 0` is automatic for `Nat`). -/
def selectColumnList (hashCols : List String) (colMapping : List Nat) : List String :=
  colMapping.enum.map (fun p =>
    if p.2 < hashCols.length then hashCols.getD p.2 "" else hashCols.getD p.1 "")

/-- The engine's evaluation of `SELECT [c1], [c2], ... FROM [t]` on one stored
row: each selected name resolves to the first column with that name. -/
def sqlSelectRow (hashCols selectCols : List String) (r : List String) : List String :=
  selectCols.map (fun nm => r.getD (hashCols.findIdx (fun c2 => c2 == nm)) "")

/-- Model of `copyData` (main.go:557): create the reference's table from its
exact `CREATE TABLE` text, then inside one transaction insert, for every row
of the target table, the row that the column-reordering `SELECT` produces.
The Go function aborts on an engine error (absent table); that branch yields
an empty trace and is unreachable for tables taken from the catalogs. -/
def copyData (origDB hashDB : Database) (origTable hashedTable : String)
    (colMapping : List Nat) : List DBAction :=
  match getCreateTableStatement origDB origTable with
  | none => []
  | some createStmt =>
    let hashCols := getColumnNames hashDB hashedTable
    let selectCols := selectColumnList hashCols colMapping
    let targetRows := ((dbLookup hashDB hashedTable).map DBTable.rows).getD []
    DBAction.exec createStmt :: DBAction.beginTx ::
      (targetRows.map (fun r => DBAction.insertRow origTable (sqlSelectRow hashCols selectCols r))
        ++ [DBAction.commitTx])

/-- Model of `copyEmptyTable` (main.go:633): emit the reference's `CREATE
TABLE` text and nothing else. -/
def copyEmptyTable (origDB : Database) (origTable : String) : List DBAction :=
  match getCreateTableStatement origDB origTable with
  | some s => [DBAction.exec s]
  | none => []

/-- The rows inserted by a trace of output-database actions. -/
def insertedRows (trace : List DBAction) : List (List String) :=
  trace.filterMap (fun a =>
    match a with
    | DBAction.insertRow _ vals => some vals
    | _ => none)

/-- The mutable state of the matching loop of `run` (main.go:102-146): the
used-target set (`usedHashedTables`), the successful matches in order (which
subsume `tableMapping` and `matchedByStrategy`), the unmatched reference
names, and the trace of actions issued against the output database. -/
structure RunState where
  used : List String
  matched : List MatchResult
  unmatched : List String
  out : List DBAction
deriving Repr, DecidableEq

/-- One iteration of the matching loop of `run` (main.go:106-146): skip a
table excluded by the filter; pass an empty table's schema straight through;
otherwise collect the not-yet-used candidates with the same column count, run
the cascade, and on success consume the target, record the match and copy the
data. -/
def runStep (origDB hashDB : Database) (index : Nat → List TableInfo)
    (filterOn : Bool) (filterSet : List String) (st : RunState) (orig : TableInfo) : RunState :=
  if filterOn && !(filterSet.contains orig.Name) then st
  else if orig.RowCount = 0 then
    { st with out := st.out ++ copyEmptyTable origDB orig.Name }
  else
    let candidates := (index orig.ColumnCount).filter (fun c => !(st.used.contains c.Name))
    if candidates.isEmpty then { st with unmatched := st.unmatched ++ [orig.Name] }
    else
      match matchTable orig candidates origDB hashDB with
      | none => { st with unmatched := st.unmatched ++ [orig.Name] }
      | some r =>
        { st with
          used := st.used ++ [r.HashedTable]
          matched := st.matched ++ [r]
          out := st.out ++ copyData origDB hashDB r.OrigTable r.HashedTable r.ColumnMapping }

/-- The core of `run` (main.go:66-162): load both catalogs, index the target
tables by column count, and fold the matching loop over the reference tables
in catalog order. -/
def runCore (origDB hashDB : Database) (filterOn : Bool) (filterSet : List String) : RunState :=
  let originalTables := loadTables origDB true
  let hashedTables := loadTables hashDB false
  let index := buildColumnCountIndex hashedTables
  originalTables.foldl (runStep origDB hashDB index filterOn filterSet)
    { used := [], matched := [], unmatched := [], out := [] }

/-! Concrete fixtures used to instantiate the theorems below on closed inputs. -/

/-- A two-table reference database: a populated `users` table and an empty
`empty_log` table. -/
def exODB : Database :=
  [{ name := "users", createStmt := "CREATE TABLE users (id, name)",
     colNames := ["id", "name"], rows := [["1", "Alice"], ["2", "Bob"]] },
   { name := "empty_log", createStmt := "CREATE TABLE empty_log (msg)",
     colNames := ["msg"], rows := [] }]

/-- A one-table target database holding the `users` data under a hashed name
with the columns swapped. -/
def exHDB : Database :=
  [{ name := "h1", createStmt := "CREATE TABLE h1 (c1, c2)",
     colNames := ["c1", "c2"], rows := [["Alice", "1"], ["Bob", "2"]] }]

/-- The catalog entry of `users` in `exODB`. -/
def exUsers : TableInfo :=
  { Name := "users", ColumnCount := 2, RowCount := 2,
    FirstNRows := [["1", "Alice"], ["2", "Bob"]] }

/-- The catalog entry of `h1` in `exHDB`. -/
def exH1 : TableInfo :=
  { Name := "h1", ColumnCount := 2, RowCount := 2,
    FirstNRows := [["Alice", "1"], ["Bob", "2"]] }

/-- The catalog entry of `empty_log` in `exODB`. -/
def exEmptyLog : TableInfo :=
  { Name := "empty_log", ColumnCount := 1, RowCount := 0, FirstNRows := [] }

/-- A one-column, one-row reference table used for the strategy-2 tie
counterexample. -/
def exTieOrig : TableInfo :=
  { Name := "t", ColumnCount := 1, RowCount := 1, FirstNRows := [["a"]] }

/-- First candidate of the strategy-2 tie: identical sample content. -/
def exTieCand1 : TableInfo :=
  { Name := "g1", ColumnCount := 1, RowCount := 1, FirstNRows := [["a"]] }

/-- Second candidate of the strategy-2 tie: identical sample content, so the
same similarity score as the first. -/
def exTieCand2 : TableInfo :=
  { Name := "g2", ColumnCount := 1, RowCount := 1, FirstNRows := [["a"]] }

/-- The bookkeeping invariant of `inferColumnMapping`: mapping and flag lists
have the right length, the assigned target indices are distinct and in range,
and a target flag is set exactly when the target is assigned somewhere. -/
def MapInv (colCount : Nat) (st : List (Option Nat) × List Bool) : Prop :=
  st.1.length = colCount ∧ st.2.length = colCount ∧
  (st.1.filterMap id).Nodup ∧
  (∀ j ∈ st.1.filterMap id, j < colCount) ∧
  (∀ j, j < colCount → (st.2.getD j false = true ↔ j ∈ st.1.filterMap id))

/-! Generic helper lemmas. -/

/-- Division of two cast naturals agrees with `mkRat` (also at denominator 0,
where both sides are 0). -/
theorem mkRat_eq_natCast_div (m n : Nat) : (mkRat m n : ℚ) = (m : ℚ) / (n : ℚ) := by
  rw [Rat.mkRat_eq_div]; norm_num

/-- Invariant preservation through a left fold. -/
theorem foldl_inv {α β : Type} (P : β → Prop) (step : β → α → β) :
    ∀ (l : List α) (init : β), P init → (∀ st a, a ∈ l → P st → P (step st a)) →
      P (l.foldl step init) := by
  intro l
  induction l with
  | nil => intro init h0 _; simpa using h0
  | cons c l ih =>
    intro init h0 hstep
    rw [List.foldl_cons]
    exact ih (step init c) (hstep init c (by simp) h0)
      (fun st a ha hst => hstep st a (by simp [ha]) hst)

/-- `strSliceEqual` decides list equality. -/
theorem strSliceEqual_iff : ∀ (a b : List String), strSliceEqual a b = true ↔ a = b := by
  intro a
  induction a with
  | nil => intro b; cases b <;> simp [strSliceEqual]
  | cons x xs ih =>
    intro b
    cases b with
    | nil => simp [strSliceEqual]
    | cons y ys =>
      have hrw : strSliceEqual (x :: xs) (y :: ys) = ((x == y) && strSliceEqual xs ys) := by
        show ((xs.length + 1 == ys.length + 1) &&
          ((x == y) && (xs.zip ys).all (fun p => p.1 == p.2))) = _
        have hlen : (xs.length + 1 == ys.length + 1) = (xs.length == ys.length) := by
          by_cases h : xs.length = ys.length
          · simp [h]
          · have h1 : (xs.length + 1 == ys.length + 1) = false := by
              simp only [beq_eq_false_iff_ne]; omega
            have h2 : (xs.length == ys.length) = false := by
              simp only [beq_eq_false_iff_ne]; exact h
            rw [h1, h2]
        rw [hlen, Bool.and_left_comm]
        rfl
      rw [hrw]
      simp [Bool.and_eq_true, beq_iff_eq, ih ys]

/-- The strict-improvement minimum scan keeps the first occurrence of the
minimum: the result splits the scanned list into a strictly-greater part
before it and a greater-or-equal part after it. -/
theorem pickClosest_spec {α : Type} (f : α → Nat) :
    ∀ (l : List α) (a : α),
      ∃ pre post, a :: l = pre ++ pickClosest f a l :: post ∧
        (∀ x ∈ pre, f (pickClosest f a l) < f x) ∧
        (∀ x ∈ post, f (pickClosest f a l) ≤ f x) := by
  intro l
  induction l with
  | nil => intro a; exact ⟨[], [], rfl, by simp, by simp⟩
  | cons c l ih =>
    intro a
    by_cases hc : f c < f a
    · rcases ih c with ⟨pre, post, hdec, hpre, hpost⟩
      have hgoal : pickClosest f a (c :: l) = pickClosest f c l := by
        show pickClosest f (if f c < f a then c else a) l = _
        rw [if_pos hc]
      rw [hgoal]
      set r := pickClosest f c l with hr
      have hle : f r ≤ f c := by
        cases pre with
        | nil =>
          have hc' : c = r := by simpa using congrArg List.head? hdec
          rw [← hc']
        | cons p0 pre' =>
          have hc' : c = p0 := by simpa using congrArg List.head? hdec
          have := hpre p0 (by simp)
          rw [← hc'] at this
          exact le_of_lt this
      refine ⟨a :: pre, post, ?_, ?_, hpost⟩
      · rw [List.cons_append, ← hdec]
      · intro x hx
        rcases List.mem_cons.mp hx with rfl | hx
        · exact lt_of_le_of_lt hle hc
        · exact hpre x hx
    · rcases ih a with ⟨pre, post, hdec, hpre, hpost⟩
      have hgoal : pickClosest f a (c :: l) = pickClosest f a l := by
        show pickClosest f (if f c < f a then c else a) l = _
        rw [if_neg hc]
      rw [hgoal]
      set r := pickClosest f a l with hr
      cases pre with
      | nil =>
        have h1 : a = r ∧ l = post := by simpa using hdec
        refine ⟨[], c :: l, ?_, by simp, ?_⟩
        · rw [← h1.1]; rfl
        · intro x hx
          rcases List.mem_cons.mp hx with rfl | hx
          · rw [← h1.1]; exact le_of_not_lt hc
          · exact hpost x (h1.2 ▸ hx)
      | cons p0 pre' =>
        have hp0 : a = p0 := by simpa using congrArg List.head? hdec
        have htail : l = pre' ++ r :: post := by simpa using congrArg List.tail hdec
        have hra : f r < f a := by
          have := hpre p0 (by simp)
          rw [← hp0] at this
          exact this
        refine ⟨a :: c :: pre', post, by simp [htail], ?_, hpost⟩
        intro x hx
        rcases List.mem_cons.mp hx with rfl | hx
        · exact hra
        · rcases List.mem_cons.mp hx with rfl | hx
          · exact lt_of_lt_of_le hra (le_of_not_lt hc)
          · exact hpre x (by simp [hx])


/-- Continuation of the best-score scan from a current best `b`: the result is
either `b` itself (nothing kept beat it) or the first element of the remaining
list that strictly improves on everything before it. -/
theorem bestScanFrom_some {α : Type} (score : α → ℚ) (skip : α → Bool) :
    ∀ (l : List α) (b : α),
      ∃ r, l.foldl (bestScanStep score skip) (some b, score b) = (some r, score r) ∧
        ((r = b ∧ ∀ x ∈ l, skip x = false → score x ≤ score b) ∨
         (∃ pre post, l = pre ++ r :: post ∧ skip r = false ∧ score b < score r ∧
           (∀ x ∈ pre, skip x = false → score x < score r) ∧
           (∀ x ∈ post, skip x = false → score x ≤ score r))) := by
  intro l
  induction l with
  | nil => intro b; exact ⟨b, rfl, Or.inl ⟨rfl, by simp⟩⟩
  | cons c l ih =>
    intro b
    rw [List.foldl_cons]
    cases hskip : skip c with
    | true =>
      rw [show bestScanStep score skip (some b, score b) c = (some b, score b) from by
        simp [bestScanStep, hskip]]
      rcases ih b with ⟨r, hfold, hcase⟩
      refine ⟨r, hfold, ?_⟩
      rcases hcase with ⟨rfl, hall⟩ | ⟨pre, post, hdec, hr, hbr, hpre, hpost⟩
      · refine Or.inl ⟨rfl, fun x hx hs => ?_⟩
        rcases List.mem_cons.mp hx with rfl | hx
        · rw [hskip] at hs; exact absurd hs (by simp)
        · exact hall x hx hs
      · refine Or.inr ⟨c :: pre, post, by simp [hdec], hr, hbr, fun x hx hs => ?_, hpost⟩
        rcases List.mem_cons.mp hx with rfl | hx
        · rw [hskip] at hs; exact absurd hs (by simp)
        · exact hpre x hx hs
    | false =>
      by_cases himp : score c > score b
      · rw [show bestScanStep score skip (some b, score b) c = (some c, score c) from by
          simp [bestScanStep, hskip, himp]]
        rcases ih c with ⟨r, hfold, hcase⟩
        refine ⟨r, hfold, Or.inr ?_⟩
        rcases hcase with ⟨rfl, hall⟩ | ⟨pre, post, hdec, hr, hbr, hpre, hpost⟩
        · exact ⟨[], l, by simp, hskip, himp, by simp, hall⟩
        · refine ⟨c :: pre, post, by simp [hdec], hr, lt_trans himp hbr, fun x hx hs => ?_, hpost⟩
          rcases List.mem_cons.mp hx with rfl | hx
          · exact hbr
          · exact hpre x hx hs
      · rw [show bestScanStep score skip (some b, score b) c = (some b, score b) from by
          simp [bestScanStep, hskip, himp]]
        rcases ih b with ⟨r, hfold, hcase⟩
        refine ⟨r, hfold, ?_⟩
        rcases hcase with ⟨rfl, hall⟩ | ⟨pre, post, hdec, hr, hbr, hpre, hpost⟩
        · refine Or.inl ⟨rfl, fun x hx hs => ?_⟩
          rcases List.mem_cons.mp hx with rfl | hx
          · exact le_of_not_lt himp
          · exact hall x hx hs
        · refine Or.inr ⟨c :: pre, post, by simp [hdec], hr, hbr, fun x hx hs => ?_, hpost⟩
          rcases List.mem_cons.mp hx with rfl | hx
          · exact lt_of_le_of_lt (le_of_not_lt himp) hbr
          · exact hpre x hx hs

theorem bestScanLoop_spec {α : Type} (score : α → ℚ) (skip : α → Bool) (t : ℚ) :
    ∀ l : List α,
      (bestScanLoop score skip t l = (none, t) ∧ ∀ x ∈ l, skip x = false → score x ≤ t)
      ∨ (∃ r pre post, bestScanLoop score skip t l = (some r, score r) ∧ l = pre ++ r :: post ∧
          skip r = false ∧ t < score r ∧
          (∀ x ∈ pre, skip x = false → score x < score r) ∧
          (∀ x ∈ post, skip x = false → score x ≤ score r)) := by
  intro l
  induction l with
  | nil => exact Or.inl ⟨rfl, by simp⟩
  | cons c l ih =>
    cases hskip : skip c with
    | true =>
      have hstep : bestScanLoop score skip t (c :: l) = bestScanLoop score skip t l := by
        simp [bestScanLoop, List.foldl_cons, bestScanStep, hskip]
      rw [hstep]
      rcases ih with ⟨h1, h2⟩ | ⟨r, pre, post, hfold, hdec, hr, htr, hpre, hpost⟩
      · refine Or.inl ⟨h1, fun x hx hs => ?_⟩
        rcases List.mem_cons.mp hx with rfl | hx
        · rw [hskip] at hs; exact absurd hs (by simp)
        · exact h2 x hx hs
      · refine Or.inr ⟨r, c :: pre, post, hfold, by simp [hdec], hr, htr, fun x hx hs => ?_, hpost⟩
        rcases List.mem_cons.mp hx with rfl | hx
        · rw [hskip] at hs; exact absurd hs (by simp)
        · exact hpre x hx hs
    | false =>
      by_cases himp : score c > t
      · have hstep : bestScanLoop score skip t (c :: l) =
            l.foldl (bestScanStep score skip) (some c, score c) := by
          simp [bestScanLoop, List.foldl_cons, bestScanStep, hskip, himp]
        rcases bestScanFrom_some score skip l c with ⟨r, hfold, hcase⟩
        refine Or.inr ?_
        rcases hcase with ⟨rfl, hall⟩ | ⟨pre, post, hdec, hr, hbr, hpre, hpost⟩
        · exact ⟨r, [], l, by rw [hstep, hfold], by simp, hskip, himp, by simp, hall⟩
        · refine ⟨r, c :: pre, post, by rw [hstep, hfold], by simp [hdec], hr,
            lt_trans himp hbr, fun x hx hs => ?_, hpost⟩
          rcases List.mem_cons.mp hx with rfl | hx
          · exact hbr
          · exact hpre x hx hs
      · have hstep : bestScanLoop score skip t (c :: l) = bestScanLoop score skip t l := by
          simp [bestScanLoop, List.foldl_cons, bestScanStep, hskip, himp]
        rw [hstep]
        rcases ih with ⟨h1, h2⟩ | ⟨r, pre, post, hfold, hdec, hr, htr, hpre, hpost⟩
        · refine Or.inl ⟨h1, fun x hx hs => ?_⟩
          rcases List.mem_cons.mp hx with rfl | hx
          · exact le_of_not_lt himp
          · exact h2 x hx hs
        · refine Or.inr ⟨r, c :: pre, post, hfold, by simp [hdec], hr, htr, fun x hx hs => ?_, hpost⟩
          rcases List.mem_cons.mp hx with rfl | hx
          · exact lt_of_le_of_lt (le_of_not_lt himp) htr
          · exact hpre x hx hs

theorem firstBest_unique {α : Type} (keepOk : α → Prop) (score : α → ℚ) :
    ∀ (pre : List α) {post pre' post' : List α} {r r' : α},
      pre ++ r :: post = pre' ++ r' :: post' →
      keepOk r → keepOk r' →
      (∀ x ∈ pre, keepOk x → score x < score r) →
      (∀ x ∈ post, keepOk x → score x ≤ score r) →
      (∀ x ∈ pre', keepOk x → score x < score r') →
      (∀ x ∈ post', keepOk x → score x ≤ score r') →
      r = r' := by
  intro pre
  induction pre with
  | nil =>
    intro post pre' post' r r' heq hk hk' _ hpost hpre' hpost'
    cases pre' with
    | nil =>
      simp only [List.nil_append, List.cons.injEq] at heq
      exact heq.1
    | cons q pre'' =>
      simp only [List.nil_append, List.cons_append, List.cons.injEq] at heq
      obtain ⟨h1, h2⟩ := heq
      have hmem : r' ∈ post := by rw [h2]; simp
      have hlt : score r < score r' := by
        have := hpre' q (by simp) (h1 ▸ hk)
        rw [← h1] at this
        exact this
      have hle : score r' ≤ score r := hpost r' hmem hk'
      exact absurd hlt (not_lt_of_le hle)
  | cons p pre ih =>
    intro post pre' post' r r' heq hk hk' hpre hpost hpre' hpost'
    cases pre' with
    | nil =>
      simp only [List.nil_append, List.cons_append, List.cons.injEq] at heq
      obtain ⟨h1, h2⟩ := heq
      have hmem : r ∈ post' := by rw [← h2]; simp
      have hlt : score r' < score r := by
        have := hpre p (by simp) (h1.symm ▸ hk')
        rw [h1] at this
        exact this
      have hle : score r ≤ score r' := hpost' r hmem hk
      exact absurd hlt (not_lt_of_le hle)
    | cons q pre'' =>
      simp only [List.cons_append, List.cons.injEq] at heq
      obtain ⟨h1, h2⟩ := heq
      exact ih h2 hk hk' (fun x hx hkx => hpre x (by simp [hx]) hkx) hpost
        (fun x hx hkx => hpre' x (by simp [hx]) hkx) hpost'


/-- The candidate-acceptance test of `trySortedRowMatch` decides equality of
the two sorted-row lists. -/
theorem sortedPred_iff : ∀ (A B : List (List String)),
    ((B.length == A.length) && (A.zip B).all (fun p => strSliceEqual p.1 p.2)) = true ↔ A = B := by
  intro A
  induction A with
  | nil =>
    intro B
    cases B <;> simp
  | cons a A ih =>
    intro B
    cases B with
    | nil => simp
    | cons b B =>
      have hlen : (B.length + 1 == A.length + 1) = (B.length == A.length) := by
        by_cases h : B.length = A.length
        · simp [h]
        · have h1 : (B.length + 1 == A.length + 1) = false := by
            simp only [beq_eq_false_iff_ne]; omega
          have h2 : (B.length == A.length) = false := by
            simp only [beq_eq_false_iff_ne]; exact h
          rw [h1, h2]
      have hrw : ((b :: B).length == (a :: A).length) = (B.length == A.length) := hlen
      rw [show (((b :: B).length == (a :: A).length) &&
          ((a :: A).zip (b :: B)).all (fun p => strSliceEqual p.1 p.2)) =
          ((B.length == A.length) && (strSliceEqual a b &&
            (A.zip B).all (fun p => strSliceEqual p.1 p.2))) from by rw [hrw]; rfl]
      rw [Bool.and_left_comm]
      simp only [Bool.and_eq_true, strSliceEqual_iff, List.cons.injEq]
      constructor
      · rintro ⟨hab, hrest⟩
        exact ⟨hab, (ih B).mp (by simp [Bool.and_eq_true, hrest])⟩
      · rintro ⟨hab, hAB⟩
        have := (ih B).mpr hAB
        simp only [Bool.and_eq_true] at this
        exact ⟨hab, this⟩

/-- Membership in the strategy-1 match list, for a reference table with at
least one sample row: exactly the candidates whose sorted-row list equals the
reference's. -/
theorem trySortedRowMatch_mem (orig : TableInfo) (candidates : List TableInfo)
    (h : orig.FirstNRows ≠ []) (c : TableInfo) :
    c ∈ trySortedRowMatch orig candidates ↔
      c ∈ candidates ∧ sortedRows c.FirstNRows 3 = sortedRows orig.FirstNRows 3 := by
  have hlen : ((sortedRows orig.FirstNRows 3).length == 0) = false := by
    rcases hx : orig.FirstNRows with _ | ⟨row, rest⟩
    · exact absurd hx h
    · simp [sortedRows, beq_eq_false_iff_ne]
  rw [show trySortedRowMatch orig candidates =
      candidates.filter (fun c =>
        (sortedRows c.FirstNRows 3).length == (sortedRows orig.FirstNRows 3).length &&
          ((sortedRows orig.FirstNRows 3).zip (sortedRows c.FirstNRows 3)).all
            (fun p => strSliceEqual p.1 p.2)) from by
    simp only [trySortedRowMatch, hlen, Bool.false_eq_true, if_false]]
  rw [List.mem_filter]
  constructor
  · rintro ⟨hc, hp⟩
    exact ⟨hc, ((sortedPred_iff _ _).mp hp).symm⟩
  · rintro ⟨hc, hp⟩
    exact ⟨hc, (sortedPred_iff _ _).mpr hp.symm⟩

/-- Every element of the strategy-1 match list is one of the candidates. -/
theorem trySortedRowMatch_subset {orig : TableInfo} {candidates : List TableInfo}
    {c : TableInfo} (hc : c ∈ trySortedRowMatch orig candidates) : c ∈ candidates := by
  unfold trySortedRowMatch at hc
  by_cases h0 : ((sortedRows orig.FirstNRows 3).length == 0) = true
  · simp [h0] at hc
  · simp only [Bool.not_eq_true] at h0
    simp only [h0, Bool.false_eq_true, if_false] at hc
    exact (List.mem_filter.mp hc).1

/-- C1: Strategy 1 keeps exactly the candidates with the same number of sorted
row fingerprints, each equal position-wise to the reference's; a unique match
is returned with strategy tag 1, several matches are disambiguated to the
first candidate of minimal row-count distance, and zero matches fall through
to strategies 2 and 3. -/
theorem claim_C1 (orig : TableInfo) (candidates : List TableInfo) (origDB hashDB : Database)
    (h : orig.FirstNRows ≠ []) :
    (∀ c, c ∈ trySortedRowMatch orig candidates ↔
       c ∈ candidates ∧
         (sortedRows c.FirstNRows 3).length = (sortedRows orig.FirstNRows 3).length ∧
         ∀ i : Nat, (sortedRows c.FirstNRows 3)[i]? = (sortedRows orig.FirstNRows 3)[i]?) ∧
    (∀ c, trySortedRowMatch orig candidates = [c] →
       matchTable orig candidates origDB hashDB = some (mkMatch origDB hashDB orig c 1)) ∧
    (trySortedRowMatch orig candidates = [] →
       matchTable orig candidates origDB hashDB =
         matchTableFallback orig candidates origDB hashDB) ∧
    (2 ≤ (trySortedRowMatch orig candidates).length →
       ∃ best pre post,
         disambiguateByRowCount orig (trySortedRowMatch orig candidates) = some best ∧
         trySortedRowMatch orig candidates = pre ++ best :: post ∧
         (∀ x ∈ pre, rowCountDiff orig best < rowCountDiff orig x) ∧
         (∀ x ∈ trySortedRowMatch orig candidates,
            rowCountDiff orig best ≤ rowCountDiff orig x) ∧
         matchTable orig candidates origDB hashDB = some (mkMatch origDB hashDB orig best 1)) := by
  refine ⟨?_, ?_, ?_, ?_⟩
  · intro c
    rw [trySortedRowMatch_mem orig candidates h c]
    constructor
    · rintro ⟨hc, heq⟩
      exact ⟨hc, by rw [heq], fun i => by rw [heq]⟩
    · rintro ⟨hc, hlen, hget⟩
      refine ⟨hc, ?_⟩
      apply List.ext_getElem?
      intro i
      exact hget i
  · intro c heq
    simp only [matchTable, heq]
  · intro heq
    simp only [matchTable, heq]
  · intro hlen
    rcases hlist : trySortedRowMatch orig candidates with _ | ⟨m0, _ | ⟨m1, rest⟩⟩
    · rw [hlist] at hlen; simp at hlen
    · rw [hlist] at hlen; simp at hlen
    · obtain ⟨pre, post, hdec, hpre, hpost⟩ :=
        pickClosest_spec (rowCountDiff orig) (m1 :: rest) m0
      refine ⟨pickClosest (rowCountDiff orig) m0 (m1 :: rest), pre, post, rfl, hdec, hpre,
        ?_, ?_⟩
      · intro x hx
        rw [hdec] at hx
        rcases List.mem_append.mp hx with hx | hx
        · exact le_of_lt (hpre x hx)
        · rcases List.mem_cons.mp hx with rfl | hx
          · exact le_refl _
          · exact hpost x hx
      · simp only [matchTable, hlist, disambiguateByRowCount]


/-- When the two value lists are not both empty, the max-sum (the Go `union`
accumulator) is nonzero. -/
theorem jaccard_union_ne_zero {a b : List String} (h : ¬(a = [] ∧ b = [])) :
    ((a ++ b).dedup.map (fun k => if a.count k < b.count k then b.count k else a.count k)).sum
      ≠ 0 := by
  intro h0
  rw [List.sum_eq_zero_iff] at h0
  rcases not_and_or.mp h with ha | hb
  · obtain ⟨x, hx⟩ := List.exists_mem_of_ne_nil a ha
    have hmem : x ∈ (a ++ b).dedup := by
      rw [List.mem_dedup, List.mem_append]; exact Or.inl hx
    have hz := h0 _ (List.mem_map_of_mem _ hmem)
    have hcount : 0 < a.count x := List.count_pos_iff.mpr hx
    by_cases hlt : a.count x < b.count x
    · rw [if_pos hlt] at hz; omega
    · rw [if_neg hlt] at hz; omega
  · obtain ⟨x, hx⟩ := List.exists_mem_of_ne_nil b hb
    have hmem : x ∈ (a ++ b).dedup := by
      rw [List.mem_dedup, List.mem_append]; exact Or.inr hx
    have hz := h0 _ (List.mem_map_of_mem _ hmem)
    have hcount : 0 < b.count x := List.count_pos_iff.mpr hx
    by_cases hlt : a.count x < b.count x
    · rw [if_pos hlt] at hz; omega
    · rw [if_neg hlt] at hz; omega

/-- The Jaccard similarity is the min-sum over max-sum quotient whenever the
two multisets are not both empty. -/
theorem jaccard_eq_div {a b : List String} (h : ¬(a = [] ∧ b = [])) :
    jaccardSimilarity a b =
      (((a ++ b).dedup.map (fun k => min (a.count k) (b.count k))).sum : ℚ) /
      (((a ++ b).dedup.map (fun k => max (a.count k) (b.count k))).sum : ℚ) := by
  have hcond : (a.isEmpty && b.isEmpty) = false := by
    rw [Bool.and_eq_false_iff]
    rcases not_and_or.mp h with ha | hb
    · exact Or.inl (by simpa [List.isEmpty_iff] using ha)
    · exact Or.inr (by simpa [List.isEmpty_iff] using hb)
  have hmin : ∀ k : String, (if a.count k < b.count k then a.count k else b.count k) =
      min (a.count k) (b.count k) := by
    intro k
    by_cases hlt : a.count k < b.count k
    · rw [if_pos hlt, min_eq_left (le_of_lt hlt)]
    · rw [if_neg hlt, min_eq_right (le_of_not_lt hlt)]
  have hmax : ∀ k : String, (if a.count k < b.count k then b.count k else a.count k) =
      max (a.count k) (b.count k) := by
    intro k
    by_cases hlt : a.count k < b.count k
    · rw [if_pos hlt, max_eq_right (le_of_lt hlt)]
    · rw [if_neg hlt, max_eq_left (le_of_not_lt hlt)]
  have huni := jaccard_union_ne_zero h
  simp only [jaccardSimilarity, hcond, Bool.false_eq_true, if_false, huni, ite_false]
  rw [mkRat_eq_natCast_div]
  simp only [hmin, hmax]

/-- C2 (amended): the Jaccard score is min-sum over max-sum, 1 for two empty
multisets and 0 when exactly one is empty; and Strategy 2 accepts a candidate
exactly when its score is at least 0.5 and it is the earliest candidate
attaining the maximum score (every earlier candidate scores strictly lower,
no candidate scores higher).  On acceptance the cascade returns the match
tagged with strategy 2. -/
theorem claim_C2 (orig : TableInfo) (candidates : List TableInfo) (hashDB : Database) :
    (∀ a b : List String,
      (a = [] ∧ b = [] → jaccardSimilarity a b = 1) ∧
      (a = [] ∧ b ≠ [] → jaccardSimilarity a b = 0) ∧
      (a ≠ [] ∧ b = [] → jaccardSimilarity a b = 0) ∧
      (¬(a = [] ∧ b = []) →
        jaccardSimilarity a b =
          (((a ++ b).dedup.map (fun k => min (a.count k) (b.count k))).sum : ℚ) /
          (((a ++ b).dedup.map (fun k => max (a.count k) (b.count k))).sum : ℚ))) ∧
    (∀ c, ((tryMultisetMatch orig candidates hashDB).1 = some c ∧
             (1:ℚ)/2 ≤ (tryMultisetMatch orig candidates hashDB).2) ↔
       ((1:ℚ)/2 ≤ strategy2Score orig c ∧
        ∃ pre post, candidates = pre ++ c :: post ∧
          (∀ d ∈ pre, strategy2Score orig d < strategy2Score orig c) ∧
          (∀ d ∈ candidates, strategy2Score orig d ≤ strategy2Score orig c))) ∧
    (∀ c origDB, (tryMultisetMatch orig candidates hashDB).1 = some c →
       (1:ℚ)/2 ≤ (tryMultisetMatch orig candidates hashDB).2 →
       matchTableFallback orig candidates origDB hashDB =
         some (mkMatch origDB hashDB orig c 2)) := by
  have hhalf : (0:ℚ) < 1/2 := by norm_num
  refine ⟨?_, ?_, ?_⟩
  · intro a b
    refine ⟨?_, ?_, ?_, jaccard_eq_div⟩
    · rintro ⟨rfl, rfl⟩; rfl
    · rintro ⟨rfl, hb⟩
      have hcond : ((List.nil (α := String)).isEmpty && b.isEmpty) = false := by
        rw [Bool.and_eq_false_iff]
        exact Or.inr (by simpa [List.isEmpty_iff] using hb)
      simp only [jaccardSimilarity, hcond, Bool.false_eq_true, if_false]
      have hz : ((([] : List String) ++ b).dedup.map
          (fun k => if ([] : List String).count k < b.count k
            then ([] : List String).count k else b.count k)).sum = 0 := by
        rw [List.sum_eq_zero_iff]
        intro x hx
        rcases List.mem_map.mp hx with ⟨k, _, hk⟩
        rw [← hk]
        by_cases hlt : ([] : List String).count k < b.count k
        · rw [if_pos hlt]; simp
        · have hc0 : ([] : List String).count k = 0 := by simp
          rw [if_neg hlt]; omega
      rw [hz]
      split
      · rfl
      · simp [Rat.zero_mkRat]
    · rintro ⟨ha, rfl⟩
      have hcond : (a.isEmpty && (List.nil (α := String)).isEmpty) = false := by
        rw [Bool.and_eq_false_iff]
        exact Or.inl (by simpa [List.isEmpty_iff] using ha)
      simp only [jaccardSimilarity, hcond, Bool.false_eq_true, if_false]
      have hz : ((a ++ ([] : List String)).dedup.map
          (fun k => if a.count k < ([] : List String).count k
            then a.count k else ([] : List String).count k)).sum = 0 := by
        rw [List.sum_eq_zero_iff]
        intro x hx
        rcases List.mem_map.mp hx with ⟨k, _, hk⟩
        rw [← hk]
        by_cases hlt : a.count k < ([] : List String).count k
        · simp at hlt
        · rw [if_neg hlt]; simp
      rw [hz]
      split
      · rfl
      · simp [Rat.zero_mkRat]
  · intro c
    constructor
    · rintro ⟨h1, h2⟩
      rcases bestScanLoop_spec (strategy2Score orig) (fun _ => false) 0 candidates with
        ⟨hres, _⟩ | ⟨r, pre, post, hres, hdec, _, _, hpre, hpost⟩
      · rw [show tryMultisetMatch orig candidates hashDB =
            bestScanLoop (strategy2Score orig) (fun _ => false) 0 candidates from rfl, hres]
          at h1
        exact absurd h1 (by simp)
      · rw [show tryMultisetMatch orig candidates hashDB =
            bestScanLoop (strategy2Score orig) (fun _ => false) 0 candidates from rfl, hres]
          at h1 h2
        have hrc : r = c := by simpa using h1
        subst hrc
        refine ⟨by simpa using h2, pre, post, hdec, fun d hd => hpre d hd rfl, ?_⟩
        intro d hd
        rw [hdec] at hd
        rcases List.mem_append.mp hd with hd | hd
        · exact le_of_lt (hpre d hd rfl)
        · rcases List.mem_cons.mp hd with rfl | hd
          · exact le_refl _
          · exact hpost d hd rfl
    · rintro ⟨hscore, pre, post, hdec, hpre, hall⟩
      rcases bestScanLoop_spec (strategy2Score orig) (fun _ => false) 0 candidates with
        ⟨_, hle⟩ | ⟨r, pre', post', hres, hdec', _, _, hpre', hpost'⟩
      · have hmem : c ∈ candidates := by rw [hdec]; simp
        have := hle c hmem rfl
        have : (1:ℚ)/2 ≤ 0 := le_trans hscore this
        norm_num at this
      · have hrc : c = r := by
          apply firstBest_unique (fun _ => True) (strategy2Score orig) pre
            (hdec ▸ hdec') trivial trivial
            (fun x hx _ => hpre x hx) (fun x hx _ => ?_)
            (fun x hx _ => hpre' x hx rfl) (fun x hx _ => hpost' x hx rfl)
          · exact hall x (by rw [hdec]; simp [hx])
        subst hrc
        rw [show tryMultisetMatch orig candidates hashDB =
          bestScanLoop (strategy2Score orig) (fun _ => false) 0 candidates from rfl, hres]
        exact ⟨rfl, hscore⟩
  · intro c origDB h1 h2
    have h12 : mkRat 1 2 = (1:ℚ)/2 := by rw [Rat.mkRat_eq_div]; norm_num
    rcases hval : tryMultisetMatch orig candidates hashDB with ⟨o, s⟩
    rw [hval] at h1 h2
    simp only at h1 h2
    subst h1
    simp only [matchTableFallback, hval, h12, if_pos h2]


/-- C1 witness: on the concrete two-column example, the unique sorted-row
match is returned with strategy tag 1. -/
theorem claim_C1_witness :
    matchTable exUsers [exH1] exODB exHDB = some (mkMatch exODB exHDB exUsers exH1 1) :=
  (claim_C1 exUsers [exH1] exODB exHDB (by decide)).2.1 exH1 (by decide)

/-- C2 counterexample: with two candidates of identical sample content (both
score 1 against the reference), the second candidate attains the highest score
and its score exceeds 0.5, yet Strategy 2 does not accept it (the first
candidate wins); the claim's if-and-only-if fails as stated. -/
theorem claim_C2_counterexample :
    ¬ ((((tryMultisetMatch exTieOrig [exTieCand1, exTieCand2] []).1 = some exTieCand2 ∧
         (1:ℚ)/2 ≤ (tryMultisetMatch exTieOrig [exTieCand1, exTieCand2] []).2)) ↔
       ((∀ d ∈ [exTieCand1, exTieCand2],
           strategy2Score exTieOrig d ≤ strategy2Score exTieOrig exTieCand2) ∧
        (1:ℚ)/2 ≤ strategy2Score exTieOrig exTieCand2)) := by
  intro hiff
  have hs2 : strategy2Score exTieOrig exTieCand2 = 1 := by decide
  have hs1 : strategy2Score exTieOrig exTieCand1 = 1 := by decide
  have hRHS : (∀ d ∈ [exTieCand1, exTieCand2],
      strategy2Score exTieOrig d ≤ strategy2Score exTieOrig exTieCand2) ∧
      (1:ℚ)/2 ≤ strategy2Score exTieOrig exTieCand2 := by
    refine ⟨?_, by rw [hs2]; norm_num⟩
    intro d hd
    rcases List.mem_cons.mp hd with rfl | hd
    · simp [hs1, hs2]
    · rcases List.mem_cons.mp hd with rfl | hd
      · simp [hs2]
      · simp at hd
  have hL := hiff.mpr hRHS
  exact absurd hL.1 (by decide)

/-- C2 witness: on the tie example the cascade's strategy-2 stage accepts the
first of the two equally-scored candidates. -/
theorem claim_C2_witness :
    matchTableFallback exTieOrig [exTieCand1, exTieCand2] exODB [] =
      some (mkMatch exODB [] exTieOrig exTieCand1 2) :=
  (claim_C2 exTieOrig [exTieCand1, exTieCand2] []).2.2 exTieCand1 exODB (by decide)
    (by
      have h : (tryMultisetMatch exTieOrig [exTieCand1, exTieCand2] []).2 = 1 := by decide
      rw [h]; norm_num)


/-- C3: with an empty fingerprint set Strategy 3 yields nothing; each
candidate's ratio is the number of fingerprints found among its values
divided by the number of fingerprints; a returned candidate attains the
maximum ratio and its ratio strictly exceeds 0.1; when no candidate exceeds
0.1 nothing is returned, and when some candidate exceeds 0.1 the best one is
returned. -/
theorem claim_C3 (orig : TableInfo) (candidates : List TableInfo) (origDB hashDB : Database) :
    (strategy3Fingerprints origDB orig = [] →
       tryFingerprintMatch orig candidates origDB hashDB = none) ∧
    (∀ c, strategy3Ratio hashDB (strategy3Fingerprints origDB orig) c =
       (((strategy3Fingerprints origDB orig).filter
           (fun v => (strategy3CandValues hashDB c).contains v)).length : ℚ) /
         ((strategy3Fingerprints origDB orig).length : ℚ)) ∧
    (∀ c, tryFingerprintMatch orig candidates origDB hashDB = some c →
       c ∈ candidates ∧
       (1:ℚ)/10 < strategy3Ratio hashDB (strategy3Fingerprints origDB orig) c ∧
       ∀ d ∈ candidates, strategy3Ratio hashDB (strategy3Fingerprints origDB orig) d ≤
         strategy3Ratio hashDB (strategy3Fingerprints origDB orig) c) ∧
    ((∀ d ∈ candidates,
        strategy3Ratio hashDB (strategy3Fingerprints origDB orig) d ≤ (1:ℚ)/10) →
       tryFingerprintMatch orig candidates origDB hashDB = none) ∧
    (∀ c ∈ candidates,
       (1:ℚ)/10 < strategy3Ratio hashDB (strategy3Fingerprints origDB orig) c →
       ∃ best, tryFingerprintMatch orig candidates origDB hashDB = some best ∧
         (1:ℚ)/10 < strategy3Ratio hashDB (strategy3Fingerprints origDB orig) best ∧
         ∀ d ∈ candidates, strategy3Ratio hashDB (strategy3Fingerprints origDB orig) d ≤
           strategy3Ratio hashDB (strategy3Fingerprints origDB orig) best) := by
  have h110 : mkRat 1 10 = (1:ℚ)/10 := by rw [Rat.mkRat_eq_div]; norm_num
  refine ⟨?_, ?_, ?_, ?_, ?_⟩
  · intro hF
    simp [tryFingerprintMatch, hF]
  · intro c
    exact mkRat_eq_natCast_div _ _
  · intro c hres
    by_cases hF : (strategy3Fingerprints origDB orig).isEmpty
    · simp [tryFingerprintMatch, hF] at hres
    · simp only [tryFingerprintMatch, hF, Bool.false_eq_true, if_false] at hres
      rcases bestScanLoop_spec (strategy3Ratio hashDB (strategy3Fingerprints origDB orig))
          (fun _ => false) 0 candidates with
        ⟨hb, _⟩ | ⟨r, pre, post, hb, hdec, _, _, hpre, hpost⟩
      · rw [hb] at hres
        simp at hres
      · rw [hb] at hres
        simp only at hres
        by_cases hgt : strategy3Ratio hashDB (strategy3Fingerprints origDB orig) r > mkRat 1 10
        · rw [if_pos hgt] at hres
          have hrc : r = c := by simpa using hres
          subst hrc
          refine ⟨by rw [hdec]; simp, by rw [← h110]; exact hgt, ?_⟩
          intro d hd
          rw [hdec] at hd
          rcases List.mem_append.mp hd with hd | hd
          · exact le_of_lt (hpre d hd rfl)
          · rcases List.mem_cons.mp hd with rfl | hd
            · exact le_refl _
            · exact hpost d hd rfl
        · rw [if_neg hgt] at hres
          exact absurd hres (by simp)
  · intro hall
    by_cases hF : (strategy3Fingerprints origDB orig).isEmpty
    · simp [tryFingerprintMatch, hF]
    · simp only [tryFingerprintMatch, hF, Bool.false_eq_true, if_false]
      rcases bestScanLoop_spec (strategy3Ratio hashDB (strategy3Fingerprints origDB orig))
          (fun _ => false) 0 candidates with
        ⟨hb, _⟩ | ⟨r, pre, post, hb, hdec, _, _, hpre, hpost⟩
      · rw [hb]
        have : ¬ ((0:ℚ) > mkRat 1 10) := by rw [h110]; norm_num
        simp only [this, if_false]
      · rw [hb]
        have hrmem : r ∈ candidates := by rw [hdec]; simp
        have : ¬ (strategy3Ratio hashDB (strategy3Fingerprints origDB orig) r > mkRat 1 10) := by
          rw [h110]
          exact not_lt_of_le (hall r hrmem)
        simp only [this, if_false]
  · intro c hc hgt
    have hF : (strategy3Fingerprints origDB orig).isEmpty = false := by
      rcases hd : strategy3Fingerprints origDB orig with _ | ⟨v, vs⟩
      · rw [hd] at hgt
        have : strategy3Ratio hashDB [] c = 0 := by
          simp [strategy3Ratio]
        rw [this] at hgt
        norm_num at hgt
      · rfl
    simp only [tryFingerprintMatch, hF, Bool.false_eq_true, if_false]
    rcases bestScanLoop_spec (strategy3Ratio hashDB (strategy3Fingerprints origDB orig))
        (fun _ => false) 0 candidates with
      ⟨hb, hle⟩ | ⟨r, pre, post, hb, hdec, _, _, hpre, hpost⟩
    · have := hle c hc rfl
      have hpos : (0:ℚ) < 1/10 := by norm_num
      exact absurd hgt (not_lt_of_le (le_trans this (le_of_lt hpos)))
    · have hmax : ∀ d ∈ candidates,
          strategy3Ratio hashDB (strategy3Fingerprints origDB orig) d ≤
          strategy3Ratio hashDB (strategy3Fingerprints origDB orig) r := by
        intro d hd
        rw [hdec] at hd
        rcases List.mem_append.mp hd with hd | hd
        · exact le_of_lt (hpre d hd rfl)
        · rcases List.mem_cons.mp hd with rfl | hd
          · exact le_refl _
          · exact hpost d hd rfl
      have hgtr : (1:ℚ)/10 < strategy3Ratio hashDB (strategy3Fingerprints origDB orig) r :=
        lt_of_lt_of_le hgt (hmax c hc)
      rw [hb]
      have hcond : strategy3Ratio hashDB (strategy3Fingerprints origDB orig) r > mkRat 1 10 := by
        rw [h110]; exact hgtr
      rw [if_pos hcond]
      exact ⟨r, rfl, hgtr, hmax⟩

/-- C3 witness: on the concrete example the only fingerprint "Alice" occurs in
the candidate's sampled values, the ratio is 1 > 0.1, and the candidate is
returned. -/
theorem claim_C3_witness :
    ∃ best, tryFingerprintMatch exUsers [exH1] exODB exHDB = some best ∧
      (1:ℚ)/10 < strategy3Ratio exHDB (strategy3Fingerprints exODB exUsers) best ∧
      ∀ d ∈ [exH1], strategy3Ratio exHDB (strategy3Fingerprints exODB exUsers) d ≤
        strategy3Ratio exHDB (strategy3Fingerprints exODB exUsers) best :=
  (claim_C3 exUsers [exH1] exODB exHDB).2.2.2.2 exH1 (by decide)
    (by
      have h : strategy3Ratio exHDB (strategy3Fingerprints exODB exUsers) exH1 = 1 := by decide
      rw [h]; norm_num)


/-- The minimum scan's result is one of the scanned elements. -/
theorem pickClosest_mem {α : Type} (f : α → Nat) (a : α) (l : List α) :
    pickClosest f a l ∈ a :: l := by
  obtain ⟨pre, post, hdec, _, _⟩ := pickClosest_spec f l a
  rw [hdec]
  simp

/-- A strategy-2 best candidate is one of the candidates. -/
theorem tryMultisetMatch_mem {orig : TableInfo} {candidates : List TableInfo}
    {hashDB : Database} {c : TableInfo} {s : ℚ}
    (h : tryMultisetMatch orig candidates hashDB = (some c, s)) : c ∈ candidates := by
  rcases bestScanLoop_spec (strategy2Score orig) (fun _ => false) 0 candidates with
    ⟨hb, _⟩ | ⟨r, pre, post, hb, hdec, _, _, _, _⟩
  · rw [show tryMultisetMatch orig candidates hashDB =
      bestScanLoop (strategy2Score orig) (fun _ => false) 0 candidates from rfl, hb] at h
    exact absurd (congrArg Prod.fst h) (by simp)
  · rw [show tryMultisetMatch orig candidates hashDB =
      bestScanLoop (strategy2Score orig) (fun _ => false) 0 candidates from rfl, hb] at h
    have : r = c := by simpa using congrArg Prod.fst h
    subst this
    rw [hdec]
    simp

/-- A strategy-3 match is one of the candidates. -/
theorem tryFingerprintMatch_mem {orig : TableInfo} {candidates : List TableInfo}
    {origDB hashDB : Database} {c : TableInfo}
    (h : tryFingerprintMatch orig candidates origDB hashDB = some c) : c ∈ candidates := by
  by_cases hF : (strategy3Fingerprints origDB orig).isEmpty
  · simp [tryFingerprintMatch, hF] at h
  · simp only [tryFingerprintMatch, hF, Bool.false_eq_true, if_false] at h
    rcases bestScanLoop_spec (strategy3Ratio hashDB (strategy3Fingerprints origDB orig))
        (fun _ => false) 0 candidates with
      ⟨hb, _⟩ | ⟨r, pre, post, hb, hdec, _, _, _, _⟩
    · rw [hb] at h
      split at h <;> simp at h
    · rw [hb] at h
      split at h
      · have : r = c := by simpa using h
        subst this
        rw [hdec]
        simp
      · simp at h

/-- A match produced by strategies 2 or 3 pairs the reference with one of the
candidates. -/
theorem matchTableFallback_mem {orig : TableInfo} {candidates : List TableInfo}
    {origDB hashDB : Database} {r : MatchResult}
    (h : matchTableFallback orig candidates origDB hashDB = some r) :
    ∃ c ∈ candidates, r.OrigTable = orig.Name ∧ r.HashedTable = c.Name := by
  have hs3 : matchTableStrategy3 orig candidates origDB hashDB = some r →
      ∃ c ∈ candidates, r.OrigTable = orig.Name ∧ r.HashedTable = c.Name := by
    intro h3
    unfold matchTableStrategy3 at h3
    rcases hf : tryFingerprintMatch orig candidates origDB hashDB with _ | c
    · rw [hf] at h3; exact absurd h3 (by simp)
    · rw [hf] at h3
      have hr : r = mkMatch origDB hashDB orig c 3 := by
        have := h3
        simp only [Option.some.injEq] at this
        exact this.symm
      exact ⟨c, tryFingerprintMatch_mem hf, by rw [hr]; exact ⟨rfl, rfl⟩⟩
  unfold matchTableFallback at h
  rcases hmm : tryMultisetMatch orig candidates hashDB with ⟨o, s⟩
  rw [hmm] at h
  rcases o with _ | c
  · exact hs3 h
  · have h2 : (if mkRat 1 2 ≤ s then some (mkMatch origDB hashDB orig c 2)
        else matchTableStrategy3 orig candidates origDB hashDB) = some r := h
    by_cases hsc : mkRat 1 2 ≤ s
    · rw [if_pos hsc] at h2
      have hr : r = mkMatch origDB hashDB orig c 2 := by
        simp only [Option.some.injEq] at h2
        exact h2.symm
      exact ⟨c, tryMultisetMatch_mem hmm, by rw [hr]; exact ⟨rfl, rfl⟩⟩
    · rw [if_neg hsc] at h2
      exact hs3 h2

/-- Any match returned by the cascade pairs the reference with one of the
candidates. -/
theorem matchTable_mem {orig : TableInfo} {candidates : List TableInfo}
    {origDB hashDB : Database} {r : MatchResult}
    (h : matchTable orig candidates origDB hashDB = some r) :
    ∃ c ∈ candidates, r.OrigTable = orig.Name ∧ r.HashedTable = c.Name := by
  rcases hlist : trySortedRowMatch orig candidates with _ | ⟨m0, _ | ⟨m1, ms⟩⟩
  · simp only [matchTable, hlist] at h
    exact matchTableFallback_mem h
  · simp only [matchTable, hlist, Option.some.injEq] at h
    have hm : m0 ∈ candidates :=
      trySortedRowMatch_subset (by rw [hlist]; simp)
    exact ⟨m0, hm, by rw [← h]; exact ⟨rfl, rfl⟩⟩
  · simp only [matchTable, hlist, disambiguateByRowCount, Option.some.injEq] at h
    have hbest : pickClosest (rowCountDiff orig) m0 (m1 :: ms) ∈ trySortedRowMatch orig candidates := by
      rw [hlist]
      exact pickClosest_mem _ _ _
    exact ⟨pickClosest (rowCountDiff orig) m0 (m1 :: ms), trySortedRowMatch_subset hbest,
      by rw [← h]; exact ⟨rfl, rfl⟩⟩



/-- Zeta-expanded form of one loop iteration, for case analysis. -/
theorem runStep_unfold (origDB hashDB : Database) (index : Nat → List TableInfo)
    (filterOn : Bool) (filterSet : List String) (st : RunState) (orig : TableInfo) :
    runStep origDB hashDB index filterOn filterSet st orig =
      (if (filterOn && !(filterSet.contains orig.Name)) = true then st
       else if orig.RowCount = 0 then
         { st with out := st.out ++ copyEmptyTable origDB orig.Name }
       else if (((index orig.ColumnCount).filter
           (fun c => !(st.used.contains c.Name))).isEmpty) = true then
         { st with unmatched := st.unmatched ++ [orig.Name] }
       else
         match matchTable orig ((index orig.ColumnCount).filter
             (fun c => !(st.used.contains c.Name))) origDB hashDB with
         | none => { st with unmatched := st.unmatched ++ [orig.Name] }
         | some r =>
           { st with
             used := st.used ++ [r.HashedTable]
             matched := st.matched ++ [r]
             out := st.out ++ copyData origDB hashDB r.OrigTable r.HashedTable
               r.ColumnMapping }) := rfl

/-- Each iteration of the matching loop either leaves the match list and the
used-target set unchanged, or the cascade succeeded on the not-yet-used
candidates: the new target was absent from the used set, the match is appended
and the target is added to the used set in the same iteration. -/
theorem runStep_cases (origDB hashDB : Database) (index : Nat → List TableInfo)
    (filterOn : Bool) (filterSet : List String) (st : RunState) (orig : TableInfo) :
    ((runStep origDB hashDB index filterOn filterSet st orig).matched = st.matched ∧
     (runStep origDB hashDB index filterOn filterSet st orig).used = st.used)
    ∨ ∃ r, matchTable orig
          ((index orig.ColumnCount).filter (fun c => !(st.used.contains c.Name)))
          origDB hashDB = some r ∧
        r.HashedTable ∉ st.used ∧
        (runStep origDB hashDB index filterOn filterSet st orig).matched = st.matched ++ [r] ∧
        (runStep origDB hashDB index filterOn filterSet st orig).used =
          st.used ++ [r.HashedTable] := by
  rw [runStep_unfold]
  by_cases h1 : (filterOn && !(filterSet.contains orig.Name)) = true
  · rw [if_pos h1]
    exact Or.inl ⟨rfl, rfl⟩
  · rw [if_neg h1]
    by_cases h2 : orig.RowCount = 0
    · rw [if_pos h2]
      exact Or.inl ⟨rfl, rfl⟩
    · rw [if_neg h2]
      by_cases h3 : (((index orig.ColumnCount).filter
          (fun c => !(st.used.contains c.Name))).isEmpty) = true
      · rw [if_pos h3]
        exact Or.inl ⟨rfl, rfl⟩
      · rw [if_neg h3]
        rcases hm : matchTable orig ((index orig.ColumnCount).filter
            (fun c => !(st.used.contains c.Name))) origDB hashDB with _ | r
        · exact Or.inl ⟨rfl, rfl⟩
        · refine Or.inr ⟨r, rfl, ?_, rfl, rfl⟩
          obtain ⟨c, hc, _, hname⟩ := matchTable_mem hm
          have hfilter := (List.mem_filter.mp hc).2
          intro habs
          rw [hname] at habs
          have hcon : st.used.contains c.Name = true := List.elem_iff.mpr habs
          rw [hcon] at hfilter
          simp at hfilter

/-- C4: over any completed run the multiset of matched target names has no
duplicates; and each loop iteration either leaves the matches and the used set
unchanged or records a match whose target was absent from the used set,
appending the match and the target together (the used set is never shrunk). -/
theorem claim_C4 (origDB hashDB : Database) (filterOn : Bool) (filterSet : List String) :
    ((runCore origDB hashDB filterOn filterSet).matched.map MatchResult.HashedTable).Nodup ∧
    (∀ (index : Nat → List TableInfo) (st : RunState) (orig : TableInfo),
      ((runStep origDB hashDB index filterOn filterSet st orig).matched = st.matched ∧
       (runStep origDB hashDB index filterOn filterSet st orig).used = st.used)
      ∨ ∃ r, matchTable orig
            ((index orig.ColumnCount).filter (fun c => !(st.used.contains c.Name)))
            origDB hashDB = some r ∧
          r.HashedTable ∉ st.used ∧
          (runStep origDB hashDB index filterOn filterSet st orig).matched =
            st.matched ++ [r] ∧
          (runStep origDB hashDB index filterOn filterSet st orig).used =
            st.used ++ [r.HashedTable]) := by
  constructor
  · have main := foldl_inv
      (fun st : RunState => (st.matched.map MatchResult.HashedTable).Nodup ∧
        ∀ r ∈ st.matched, r.HashedTable ∈ st.used)
      (runStep origDB hashDB (buildColumnCountIndex (loadTables hashDB false))
        filterOn filterSet)
      (loadTables origDB true) { used := [], matched := [], unmatched := [], out := [] }
      (by constructor <;> simp)
      (fun st a _ hst => by
        rcases runStep_cases origDB hashDB
            (buildColumnCountIndex (loadTables hashDB false)) filterOn filterSet st a with
          ⟨hm, hu⟩ | ⟨r, _, hfresh, hm, hu⟩
        · rw [hm, hu]
          exact hst
        · constructor
          · rw [hm, List.map_append, List.nodup_append]
            refine ⟨hst.1, by simp, ?_⟩
            intro x hx hx2
            simp only [List.map_cons, List.map_nil, List.mem_singleton] at hx2
            subst hx2
            rcases List.mem_map.mp hx with ⟨r', hr', hr'name⟩
            exact hfresh (hr'name ▸ hst.2 r' hr')
          · intro r' hr'
            rw [hm] at hr'
            rw [hu]
            rcases List.mem_append.mp hr' with hr' | hr'
            · exact List.mem_append_left _ (hst.2 r' hr')
            · have : r' = r := by simpa using hr'
              subst this
              simp)
    exact main.1
  · exact fun index st orig => runStep_cases origDB hashDB index filterOn filterSet st orig

/-- C8: every match recorded by a run pairs a reference catalog table with a
target catalog table of the same column count (candidates are drawn from the
equal-column-count bucket minus used targets); and every cascade result names
one of the candidates it was given. -/
theorem claim_C8 (origDB hashDB : Database) (filterOn : Bool) (filterSet : List String) :
    (∀ r ∈ (runCore origDB hashDB filterOn filterSet).matched,
       ∃ o ∈ loadTables origDB true, ∃ t ∈ loadTables hashDB false,
         r.OrigTable = o.Name ∧ r.HashedTable = t.Name ∧ o.ColumnCount = t.ColumnCount) ∧
    (∀ (orig : TableInfo) (cands : List TableInfo) (oDB hDB : Database) (r : MatchResult),
       matchTable orig cands oDB hDB = some r → ∃ c ∈ cands, r.HashedTable = c.Name) := by
  constructor
  · have main := foldl_inv
      (fun st : RunState => ∀ r ∈ st.matched, ∃ o ∈ loadTables origDB true,
        ∃ t ∈ loadTables hashDB false, r.OrigTable = o.Name ∧ r.HashedTable = t.Name ∧
          o.ColumnCount = t.ColumnCount)
      (runStep origDB hashDB (buildColumnCountIndex (loadTables hashDB false))
        filterOn filterSet)
      (loadTables origDB true) { used := [], matched := [], unmatched := [], out := [] }
      (by simp)
      (fun st a ha hst => by
        rcases runStep_cases origDB hashDB
            (buildColumnCountIndex (loadTables hashDB false)) filterOn filterSet st a with
          ⟨hm, _⟩ | ⟨r, hmt, _, hm, _⟩
        · intro r hr
          rw [hm] at hr
          exact hst r hr
        · intro r' hr'
          rw [hm] at hr'
          rcases List.mem_append.mp hr' with hr' | hr'
          · exact hst r' hr'
          · have : r' = r := by simpa using hr'
            subst this
            obtain ⟨c, hc, hOrig, hHash⟩ := matchTable_mem hmt
            have hc2 := (List.mem_filter.mp hc).1
            have hc3 := List.mem_filter.mp hc2
            have hcol : c.ColumnCount = a.ColumnCount := by
              have := hc3.2
              simpa [beq_iff_eq] using this
            exact ⟨a, ha, c, hc3.1, hOrig, hHash, hcol.symm⟩)
    exact main
  · intro orig cands oDB hDB r hmt
    obtain ⟨c, hc, _, hname⟩ := matchTable_mem hmt
    exact ⟨c, hc, hname⟩

/-- C8 witness: in the concrete run the single recorded match pairs `users`
with `h1`, both two-column tables. -/
theorem claim_C8_witness :
    ∃ o ∈ loadTables exODB true, ∃ t ∈ loadTables exHDB false,
      MatchResult.OrigTable ⟨"users", "h1", [1, 0], 1⟩ = o.Name ∧
      MatchResult.HashedTable ⟨"users", "h1", [1, 0], 1⟩ = t.Name ∧
      o.ColumnCount = t.ColumnCount :=
  (claim_C8 exODB exHDB false []).1 ⟨"users", "h1", [1, 0], 1⟩ (by decide)

/-- C9: an empty reference table that passes the filter makes the loop emit
exactly the reference's `CREATE TABLE` text into the output trace and leaves
the used set, the match list and the unmatched list untouched. -/
theorem claim_C9 (origDB hashDB : Database) (index : Nat → List TableInfo)
    (filterOn : Bool) (filterSet : List String) (st : RunState) (orig : TableInfo)
    (tb : DBTable)
    (h0 : orig.RowCount = 0)
    (hf : filterOn = true → filterSet.contains orig.Name = true)
    (ht : dbLookup origDB orig.Name = some tb) :
    runStep origDB hashDB index filterOn filterSet st orig =
      { st with out := st.out ++ [DBAction.exec tb.createStmt] } := by
  have h1 : ¬ ((filterOn && !(filterSet.contains orig.Name)) = true) := by
    cases hfo : filterOn
    · simp
    · rw [hf hfo]
      simp
  have hcopy : copyEmptyTable origDB orig.Name = [DBAction.exec tb.createStmt] := by
    unfold copyEmptyTable getCreateTableStatement
    rw [ht]
    rfl
  rw [runStep_unfold, if_neg h1, if_pos h0, hcopy]

/-- C9 witness: the empty `empty_log` table of the concrete reference database
passes through as its schema alone. -/
theorem claim_C9_witness :
    runStep exODB exHDB (buildColumnCountIndex (loadTables exHDB false)) false []
      { used := [], matched := [], unmatched := [], out := [] } exEmptyLog =
      { used := [], matched := [], unmatched := [],
        out := [DBAction.exec "CREATE TABLE empty_log (msg)"] } :=
  claim_C9 exODB exHDB (buildColumnCountIndex (loadTables exHDB false)) false []
    { used := [], matched := [], unmatched := [], out := [] } exEmptyLog
    { name := "empty_log", createStmt := "CREATE TABLE empty_log (msg)",
      colNames := ["msg"], rows := [] }
    (by decide) (by intro h; exact absurd h (by decide)) (by decide)


/-- C4 witness: the concrete run's matched target names are duplicate-free. -/
theorem claim_C4_witness :
    ((runCore exODB exHDB false []).matched.map MatchResult.HashedTable).Nodup :=
  (claim_C4 exODB exHDB false []).1


/-- An in-range `getD` is a member of the list. -/
theorem getD_mem_of_lt {α : Type} (l : List α) {j : Nat} (h : j < l.length) (d : α) :
    l.getD j d ∈ l := by
  rw [List.getD_eq_getElem?_getD, List.getElem?_eq_getElem h]
  exact List.getElem_mem h

/-- In a duplicate-free column-name list, looking a name back up by `findIdx`
returns the index it came from. -/
theorem findIdx_beq_getD : ∀ (l : List String), l.Nodup → ∀ {j : Nat}, j < l.length →
    l.findIdx (fun c2 => c2 == l.getD j "") = j := by
  intro l
  induction l with
  | nil => intro _ j hj; simp at hj
  | cons x xs ih =>
    intro hnd j hj
    cases j with
    | zero =>
      rw [List.findIdx_cons]
      simp
    | succ j =>
      have hjx : j < xs.length := by simpa using hj
      have hgd : (x :: xs).getD (j + 1) "" = xs.getD j "" := rfl
      rw [List.findIdx_cons, hgd]
      have hxmem : xs.getD j "" ∈ xs := getD_mem_of_lt xs hjx ""
      have hxne : (x == xs.getD j "") = false := by
        rw [beq_eq_false_iff_ne]
        intro heq
        exact (List.nodup_cons.mp hnd).1 (heq ▸ hxmem)
      rw [hxne]
      simp only [cond_false]
      rw [ih (List.nodup_cons.mp hnd).2 hjx]

/-- When every mapped index is in range, the selected column names are exactly
the names the mapping points at. -/
theorem selectColumnList_valid {hashCols : List String} {colMapping : List Nat}
    (hv : ∀ j ∈ colMapping, j < hashCols.length) :
    selectColumnList hashCols colMapping = colMapping.map (fun j => hashCols.getD j "") := by
  unfold selectColumnList
  have key : ∀ (l : List Nat) (n : Nat), (∀ j ∈ l, j < hashCols.length) →
      (l.enumFrom n).map (fun p =>
        if p.2 < hashCols.length then hashCols.getD p.2 "" else hashCols.getD p.1 "") =
      l.map (fun j => hashCols.getD j "") := by
    intro l
    induction l with
    | nil => intro n _; rfl
    | cons j rest ihl =>
      intro n hl
      simp only [List.enumFrom, List.map_cons]
      rw [if_pos (hl j (by simp))]
      rw [ihl (n + 1) (fun j' hj' => hl j' (by simp [hj']))]
  exact key colMapping 0 hv

/-- Name-based selection through a duplicate-free column list equals direct
index selection through the mapping. -/
theorem sqlSelectRow_valid {hashCols : List String} (hnd : hashCols.Nodup)
    {colMapping : List Nat} (hv : ∀ j ∈ colMapping, j < hashCols.length)
    (r : List String) :
    sqlSelectRow hashCols (selectColumnList hashCols colMapping) r =
      colMapping.map (fun j => r.getD j "") := by
  rw [selectColumnList_valid hv]
  unfold sqlSelectRow
  rw [List.map_map]
  apply List.map_congr_left
  intro j hj
  simp only [Function.comp]
  rw [findIdx_beq_getD hashCols hnd (hv j hj)]

/-- C7: for a matched pair whose tables exist, whose target column names are
duplicate-free and whose mapping entries are in range, the row copier emits
the reference's exact `CREATE TABLE` text, then, inside a single
begin/commit transaction, one insert per target row whose column `i` holds
the target row's value at index `mapping[i]`; the multiset of inserted rows
is the multiset of target rows reordered by the mapping. -/
theorem claim_C7 (origDB hashDB : Database) (origTable hashedTable : String)
    (colMapping : List Nat) (ot ht : DBTable)
    (h1 : dbLookup origDB origTable = some ot)
    (h2 : dbLookup hashDB hashedTable = some ht)
    (h3 : ht.colNames.Nodup)
    (h4 : ∀ j ∈ colMapping, j < ht.colNames.length) :
    copyData origDB hashDB origTable hashedTable colMapping =
      DBAction.exec ot.createStmt :: DBAction.beginTx ::
        (ht.rows.map (fun r =>
          DBAction.insertRow origTable (colMapping.map (fun j => r.getD j ""))) ++
          [DBAction.commitTx]) ∧
    insertedRows (copyData origDB hashDB origTable hashedTable colMapping) =
      ht.rows.map (fun r => colMapping.map (fun j => r.getD j "")) ∧
    (↑(insertedRows (copyData origDB hashDB origTable hashedTable colMapping)) :
        Multiset (List String)) =
      (↑ht.rows : Multiset (List String)).map (fun r => colMapping.map (fun j => r.getD j "")) := by
  have hcreate : getCreateTableStatement origDB origTable = some ot.createStmt := by
    unfold getCreateTableStatement
    rw [h1]
    rfl
  have hcols : getColumnNames hashDB hashedTable = ht.colNames := by
    unfold getColumnNames
    rw [h2]
    rfl
  have hrows : ((dbLookup hashDB hashedTable).map DBTable.rows).getD [] = ht.rows := by
    rw [h2]
    rfl
  have htrace : copyData origDB hashDB origTable hashedTable colMapping =
      DBAction.exec ot.createStmt :: DBAction.beginTx ::
        (ht.rows.map (fun r =>
          DBAction.insertRow origTable (colMapping.map (fun j => r.getD j ""))) ++
          [DBAction.commitTx]) := by
    unfold copyData
    rw [hcreate]
    simp only [hcols, hrows]
    congr 2
    apply congrArg (fun l => l ++ [DBAction.commitTx])
    apply List.map_congr_left
    intro r _
    rw [sqlSelectRow_valid h3 h4 r]
  have hins : insertedRows (copyData origDB hashDB origTable hashedTable colMapping) =
      ht.rows.map (fun r => colMapping.map (fun j => r.getD j "")) := by
    rw [htrace]
    simp [insertedRows, List.filterMap_map, Function.comp_def]
    exact congrFun (List.filterMap_eq_map
      (fun r : List String => colMapping.map (fun j => r[j]?.getD ""))) ht.rows
  refine ⟨htrace, hins, ?_⟩
  rw [hins]
  simp [Multiset.map_coe]

/-- C7 witness: the concrete matched pair copies both target rows reordered
through the mapping inside one transaction. -/
theorem claim_C7_witness :
    copyData exODB exHDB "users" "h1" [1, 0] =
      DBAction.exec "CREATE TABLE users (id, name)" :: DBAction.beginTx ::
        (([["Alice", "1"], ["Bob", "2"]] : List (List String)).map (fun r =>
            DBAction.insertRow "users" ([1, 0].map (fun j => r.getD j ""))) ++
          [DBAction.commitTx]) :=
  (claim_C7 exODB exHDB "users" "h1" [1, 0]
    { name := "users", createStmt := "CREATE TABLE users (id, name)",
      colNames := ["id", "name"], rows := [["1", "Alice"], ["2", "Bob"]] }
    { name := "h1", createStmt := "CREATE TABLE h1 (c1, c2)",
      colNames := ["c1", "c2"], rows := [["Alice", "1"], ["Bob", "2"]] }
    (by decide) (by decide) (by decide) (by decide)).1


/-! Machinery for the column-mapping passes: the bookkeeping invariant that
ties the `mapping` entries to the `usedHash` flags. -/

/-- Writing at the overwritten index. -/
theorem getD_set_self {α : Type} (l : List α) {i : Nat} (h : i < l.length) (a d : α) :
    (l.set i a).getD i d = a := by
  rw [List.getD_eq_getElem?_getD, List.getElem?_set_self h]
  rfl

/-- Writing elsewhere leaves a read unchanged. -/
theorem getD_set_ne {α : Type} (l : List α) {i k : Nat} (h : i ≠ k) (a d : α) :
    (l.set i a).getD k d = l.getD k d := by
  rw [List.getD_eq_getElem?_getD, List.getElem?_set_ne h, ← List.getD_eq_getElem?_getD]

/-- The all-unassigned mapping carries no assignments. -/
theorem filterMap_id_replicate_none (n : Nat) :
    (List.replicate n (none : Option Nat)).filterMap id = [] := by
  induction n with
  | zero => rfl
  | succ n ih => simp [List.replicate_succ, List.filterMap_cons, ih]

/-- Reading the all-false flag list gives false everywhere. -/
theorem getD_replicate_false (n : Nat) : ∀ (j : Nat),
    (List.replicate n false).getD j false = false := by
  induction n with
  | zero => intro j; rfl
  | succ n ih =>
    intro j
    cases j with
    | zero => rfl
    | succ j => exact ih j

/-- The number of assigned entries is the length of the collected
assignments. -/
theorem countP_isSome_eq (m : List (Option Nat)) :
    m.countP (fun o => o.isSome) = (m.filterMap id).length := by
  induction m with
  | nil => rfl
  | cons a m ih =>
    cases a with
    | none => simpa [List.countP_cons, List.filterMap_cons] using ih
    | some x => simpa [List.countP_cons, List.filterMap_cons] using ih

/-- Complement counting for a boolean predicate. -/
theorem countP_not_add {α : Type} (p : α → Bool) (l : List α) :
    l.countP (fun a => !(p a)) + l.countP p = l.length := by
  induction l with
  | nil => rfl
  | cons a l ih =>
    by_cases h : p a = true <;> simp [List.countP_cons, h] <;> omega

/-- Positions of a list selected through `getD` by a predicate are counted by
`countP` on the list itself. -/
theorem length_filter_range_getD {α : Type} (p : α → Bool) (d : α) :
    ∀ (m : List α),
      ((List.range m.length).filter (fun i => p (m.getD i d))).length = m.countP p := by
  intro m
  induction m with
  | nil => rfl
  | cons a m ih =>
    rw [show (a :: m).length = m.length + 1 from rfl, List.range_succ_eq_map,
      List.filter_cons]
    have htail : ((List.map Nat.succ (List.range m.length)).filter
        (fun i => p ((a :: m).getD i d))).length = m.countP p := by
      rw [List.filter_map]
      rw [List.length_map]
      exact ih
    by_cases hpa : p a = true
    · have h0 : p ((a :: m).getD 0 d) = true := hpa
      rw [if_pos h0, List.length_cons, htail, List.countP_cons, hpa]
      simp
    · have h0 : ¬ (p ((a :: m).getD 0 d) = true) := hpa
      rw [if_neg h0, htail, List.countP_cons]
      cases hb : p a with
      | false => simp
      | true => exact absurd hb hpa

/-- Setting an unassigned entry splits the collected assignments around the
new value. -/
theorem filterMap_set_some : ∀ (m : List (Option Nat)) (i : Nat), i < m.length →
    m.getD i none = none → ∀ (j : Nat),
      ∃ l₁ l₂, m.filterMap id = l₁ ++ l₂ ∧
        (m.set i (some j)).filterMap id = l₁ ++ j :: l₂ := by
  intro m
  induction m with
  | nil => intro i hi; simp at hi
  | cons a m ih =>
    intro i hi hnone j
    cases i with
    | zero =>
      have ha : a = none := hnone
      subst ha
      exact ⟨[], m.filterMap id, by simp, by simp⟩
    | succ i =>
      have hi2 : i < m.length := by simpa using hi
      obtain ⟨l₁, l₂, h1, h2⟩ := ih i hi2 hnone j
      cases a with
      | none => exact ⟨l₁, l₂, by simpa using h1, by simpa using h2⟩
      | some x => exact ⟨x :: l₁, l₂, by simp [h1], by simp [h2]⟩

/-- Assigning a fresh target `j` to an unmapped reference column `i` preserves
the invariant. -/
theorem MapInv_assign {colCount : Nat} {st : List (Option Nat) × List Bool}
    (inv : MapInv colCount st) {i j : Nat} (hi : i < colCount)
    (hnone : st.1.getD i none = none) (hj : j < colCount)
    (hused : st.2.getD j false = false) :
    MapInv colCount (st.1.set i (some j), st.2.set j true) := by
  obtain ⟨hlen1, hlen2, hnd, hbound, hiff⟩ := inv
  obtain ⟨l₁, l₂, hfm, hfm2⟩ := filterMap_set_some st.1 i (hlen1 ▸ hi) hnone j
  have hjnot : j ∉ st.1.filterMap id := by
    intro hmem
    have := (hiff j hj).mpr hmem
    rw [hused] at this
    simp at this
  refine ⟨by simpa using hlen1, by simpa using hlen2, ?_, ?_, ?_⟩
  · show ((st.1.set i (some j)).filterMap id).Nodup
    rw [hfm2, (List.perm_middle).nodup_iff, List.nodup_cons]
    exact ⟨by rw [← hfm]; exact hjnot, by rw [← hfm]; exact hnd⟩
  · intro x hx
    show x < colCount
    rw [hfm2] at hx
    rcases List.mem_cons.mp (List.perm_middle.subset hx) with rfl | hx2
    · exact hj
    · exact hbound x (hfm ▸ hx2)
  · intro k hk
    show (st.2.set j true).getD k false = true ↔ k ∈ (st.1.set i (some j)).filterMap id
    by_cases hkj : k = j
    · subst hkj
      have hleft : (st.2.set k true).getD k false = true :=
        getD_set_self st.2 (hlen2 ▸ hj) true false
      have hright : k ∈ (st.1.set i (some k)).filterMap id := by
        rw [hfm2]
        simp
      exact iff_of_true hleft hright
    · have hgd : (st.2.set j true).getD k false = st.2.getD k false :=
        getD_set_ne st.2 (fun h => hkj h.symm) true false
      rw [hgd, hiff k hk, hfm, hfm2]
      simp [List.mem_append, List.mem_cons, hkj]


/-- One exact-equality iteration preserves the invariant. -/
theorem passAStep_inv {origCols hashCols : List (List String)} {colCount : Nat}
    {st : List (Option Nat) × List Bool} (inv : MapInv colCount st) {i : Nat}
    (hi : i < colCount) :
    MapInv colCount (passAStep origCols hashCols colCount st i) := by
  unfold passAStep
  by_cases hsome : (st.1.getD i none).isSome = true
  · rw [if_pos hsome]
    exact inv
  · rw [if_neg hsome]
    rcases hf : (List.range colCount).find? (fun j =>
        !(st.2.getD j false) && strSliceEqual (origCols.getD i []) (hashCols.getD j [])) with
      _ | j
    · exact inv
    · have hp := List.find?_some hf
      have hjlt : j < colCount := List.mem_range.mp (List.mem_of_find?_eq_some hf)
      have hused : st.2.getD j false = false := by
        have hsplit : (!(st.2.getD j false)) = true ∧
            strSliceEqual (origCols.getD i []) (hashCols.getD j []) = true := by
          simpa using hp
        simpa using hsplit.1
      have hnone : st.1.getD i none = none := by
        rcases ho : st.1.getD i none with _ | v
        · rfl
        · rw [ho] at hsome
          simp at hsome
      exact MapInv_assign inv hi hnone hjlt hused

/-- One frequency-Jaccard iteration preserves the invariant. -/
theorem passBStep_inv {origCols hashCols : List (List String)} {colCount : Nat}
    {st : List (Option Nat) × List Bool} (inv : MapInv colCount st) {i : Nat}
    (hi : i < colCount) :
    MapInv colCount (passBStep origCols hashCols colCount st i) := by
  unfold passBStep
  by_cases hsome : (st.1.getD i none).isSome = true
  · rw [if_pos hsome]
    exact inv
  · rw [if_neg hsome]
    rcases hf : (passBSelect origCols hashCols st.2 colCount i).1 with _ | j
    · exact inv
    · have hnone : st.1.getD i none = none := by
        rcases ho : st.1.getD i none with _ | v
        · rfl
        · rw [ho] at hsome
          simp at hsome
      rcases bestScanLoop_spec
          (fun j => jaccardSimilarity (origCols.getD i []) (hashCols.getD j []))
          (fun j => st.2.getD j false) (mkRat 3 10) (List.range colCount) with
        ⟨hb, _⟩ | ⟨r, pre, post, hb, hdec, hskip, _, _, _⟩
      · rw [show passBSelect origCols hashCols st.2 colCount i =
            bestScanLoop (fun j => jaccardSimilarity (origCols.getD i []) (hashCols.getD j []))
              (fun j => st.2.getD j false) (mkRat 3 10) (List.range colCount) from rfl, hb]
          at hf
        simp at hf
      · rw [show passBSelect origCols hashCols st.2 colCount i =
            bestScanLoop (fun j => jaccardSimilarity (origCols.getD i []) (hashCols.getD j []))
              (fun j => st.2.getD j false) (mkRat 3 10) (List.range colCount) from rfl, hb]
          at hf
        have hrj : r = j := by simpa using hf
        subst hrj
        have hrlt : r < colCount := List.mem_range.mp (by rw [hdec]; simp)
        exact MapInv_assign inv hi hnone hrlt hskip

/-- The exact-equality pass establishes the invariant from the all-unassigned
state. -/
theorem passA_inv (origCols hashCols : List (List String)) (colCount : Nat) :
    MapInv colCount (passA origCols hashCols colCount) := by
  unfold passA
  apply foldl_inv (MapInv colCount)
  · refine ⟨by simp, by simp, ?_, ?_, ?_⟩
    · rw [show (List.replicate colCount (none : Option Nat), List.replicate colCount false).1 =
        List.replicate colCount (none : Option Nat) from rfl, filterMap_id_replicate_none]
      exact List.nodup_nil
    · intro j hj
      rw [show (List.replicate colCount (none : Option Nat), List.replicate colCount false).1 =
        List.replicate colCount (none : Option Nat) from rfl, filterMap_id_replicate_none] at hj
      simp at hj
    · intro j _
      rw [show (List.replicate colCount (none : Option Nat), List.replicate colCount false).2 =
        List.replicate colCount false from rfl, getD_replicate_false,
        show (List.replicate colCount (none : Option Nat), List.replicate colCount false).1 =
        List.replicate colCount (none : Option Nat) from rfl, filterMap_id_replicate_none]
      simp
  · intro st a ha hst
    exact passAStep_inv hst (List.mem_range.mp ha)

/-- The frequency-Jaccard pass preserves the invariant. -/
theorem passB_inv (origCols hashCols : List (List String)) (colCount : Nat)
    (st : List (Option Nat) × List Bool) (inv : MapInv colCount st) :
    MapInv colCount (passB origCols hashCols colCount st) := by
  unfold passB
  apply foldl_inv (MapInv colCount) _ _ _ inv
  intro st a ha hst
  exact passBStep_inv hst (List.mem_range.mp ha)


/-- A duplicate-free list of naturals below `c` with `c` elements is a
permutation of `range c`. -/
theorem perm_range_of_nodup (l : List Nat) (c : Nat) (hnd : l.Nodup)
    (hb : ∀ x ∈ l, x < c) (hl : l.length = c) : l.Perm (List.range c) := by
  apply List.perm_of_nodup_nodup_toFinset_eq hnd (List.nodup_range _)
  apply Finset.eq_of_subset_of_card_le
  · intro x hx
    rw [List.mem_toFinset] at hx
    rw [List.mem_toFinset, List.mem_range]
    exact hb x hx
  · rw [List.toFinset_card_of_nodup hnd, List.toFinset_card_of_nodup (List.nodup_range _),
      List.length_range, hl]

/-- Splitting an option list count into unassigned and assigned entries. -/
theorem countP_isNone_add (m : List (Option Nat)) :
    m.countP (fun o => o.isNone) + m.countP (fun o => o.isSome) = m.length := by
  induction m with
  | nil => rfl
  | cons a m ih =>
    cases a <;> simp [List.countP_cons] <;> omega

/-- Under the invariant, the number of set flags is the number of assigned
targets. -/
theorem MapInv_used_count {colCount : Nat} {st : List (Option Nat) × List Bool}
    (inv : MapInv colCount st) :
    ((List.range colCount).filter (fun j => st.2.getD j false)).length =
      (st.1.filterMap id).length := by
  have hnd1 : ((List.range colCount).filter (fun j => st.2.getD j false)).Nodup :=
    (List.nodup_range _).filter _
  have hperm : ((List.range colCount).filter (fun j => st.2.getD j false)).Perm
      (st.1.filterMap id) := by
    apply List.perm_of_nodup_nodup_toFinset_eq hnd1 inv.2.2.1
    ext x
    simp only [List.mem_toFinset, List.mem_filter, List.mem_range]
    constructor
    · rintro ⟨hx, hused⟩
      exact (inv.2.2.2.2 x hx).mp hused
    · intro hx
      exact ⟨inv.2.2.2.1 x hx, (inv.2.2.2.2 x (inv.2.2.2.1 x hx)).mpr hx⟩
  exact hperm.length_eq

/-- Under the invariant, the unmapped reference columns and the unused target
columns are equinumerous (each assignment consumed exactly one of each). -/
theorem MapInv_counts {colCount : Nat} {st : List (Option Nat) × List Bool}
    (inv : MapInv colCount st) :
    ((List.range colCount).filter (fun i => (st.1.getD i none).isNone)).length +
      (st.1.filterMap id).length = colCount ∧
    ((List.range colCount).filter (fun j => !(st.2.getD j false))).length +
      (st.1.filterMap id).length = colCount := by
  have hlen1 := inv.1
  have hlen2 := inv.2.1
  constructor
  · have hbridge := length_filter_range_getD (fun o => o.isNone) (none : Option Nat) st.1
    rw [hlen1] at hbridge
    rw [hbridge, ← countP_isSome_eq st.1, ← hlen1]
    have := countP_isNone_add st.1
    omega
  · have hbridge := length_filter_range_getD (fun b => !b) false st.2
    rw [hlen2] at hbridge
    rw [hbridge]
    have hcomp := countP_not_add (fun b => b) st.2
    have hbridge2 := length_filter_range_getD (fun b => b) false st.2
    rw [hlen2] at hbridge2
    have hused := MapInv_used_count inv
    rw [hbridge2] at hused
    simp only at hcomp
    rw [← hused, ← hlen2]
    omega

/-- The elimination assignment loop: under distinct, unassigned positions it
keeps the length, appends exactly the paired targets to the assignments, and
makes every touched position assigned while preserving assigned positions. -/
theorem assignPairs_spec : ∀ (pairs : List (Nat × Nat)) (m : List (Option Nat)),
    (∀ p ∈ pairs, p.1 < m.length ∧ m.getD p.1 none = none) →
    (pairs.map Prod.fst).Nodup →
    (assignPairs m pairs).length = m.length ∧
    ((assignPairs m pairs).filterMap id).Perm (m.filterMap id ++ pairs.map Prod.snd) ∧
    (∀ i, (m.getD i none).isSome → ((assignPairs m pairs).getD i none).isSome) ∧
    (∀ p ∈ pairs, ((assignPairs m pairs).getD p.1 none).isSome) := by
  intro pairs
  induction pairs with
  | nil =>
    intro m _ _
    refine ⟨rfl, ?_, fun i h => h, by simp⟩
    rw [List.map_nil, List.append_nil]
    exact List.Perm.refl _
  | cons q rest ih =>
    intro m hpos hnd
    have hq := hpos q (by simp)
    have hndq := List.nodup_cons.mp
      (show (q.1 :: rest.map Prod.fst).Nodup from hnd)
    have hrest : ∀ p ∈ rest, p.1 < (m.set q.1 (some q.2)).length ∧
        (m.set q.1 (some q.2)).getD p.1 none = none := by
      intro p hp
      have hp1 := hpos p (by simp [hp])
      have hne : q.1 ≠ p.1 := by
        intro heq
        exact hndq.1 (heq ▸ List.mem_map_of_mem Prod.fst hp)
      exact ⟨by simpa using hp1.1, by rw [getD_set_ne m hne]; exact hp1.2⟩
    obtain ⟨ihlen, ihperm, ihsome, ihpairs⟩ := ih (m.set q.1 (some q.2)) hrest hndq.2
    obtain ⟨l₁, l₂, hfm, hfm2⟩ := filterMap_set_some m q.1 hq.1 hq.2 q.2
    have hsetSome : ∀ i, (m.getD i none).isSome →
        ((m.set q.1 (some q.2)).getD i none).isSome := by
      intro i hsome
      by_cases hiq : q.1 = i
      · subst hiq
        rw [getD_set_self m hq.1]
        rfl
      · rw [getD_set_ne m hiq]
        exact hsome
    refine ⟨by rw [show assignPairs m (q :: rest) =
        assignPairs (m.set q.1 (some q.2)) rest from rfl, ihlen, List.length_set], ?_, ?_, ?_⟩
    · show ((assignPairs (m.set q.1 (some q.2)) rest).filterMap id).Perm _
      have step1 := ihperm
      rw [hfm2] at step1
      have step2 : ((l₁ ++ q.2 :: l₂) ++ rest.map Prod.snd).Perm
          (m.filterMap id ++ ((q :: rest).map Prod.snd)) := by
        rw [hfm, show (q :: rest).map Prod.snd = q.2 :: rest.map Prod.snd from rfl]
        exact (List.perm_middle.append_right (rest.map Prod.snd)).trans
          List.perm_middle.symm
      exact step1.trans step2
    · intro i hsome
      exact ihsome i (hsetSome i hsome)
    · intro p hp
      rcases List.mem_cons.mp hp with rfl | hp
      · apply ihsome
        rw [getD_set_self m hq.1]
        rfl
      · exact ihpairs p hp

/-- The elimination pass always fires (the two unmapped lists have equal
length under the invariant), assigns every remaining reference column a
distinct remaining target column, and leaves the assignments a permutation of
all column indices. -/
theorem elimination_spec {colCount : Nat} {st : List (Option Nat) × List Bool}
    (inv : MapInv colCount st) :
    (elimination st colCount).length = colCount ∧
    ((elimination st colCount).filterMap id).Perm (List.range colCount) ∧
    (∀ i, i < colCount → ((elimination st colCount).getD i none).isSome) := by
  obtain ⟨hcount1, hcount2⟩ := MapInv_counts inv
  obtain ⟨hlen1, hlen2, hnd, hbound, hiff⟩ := inv
  have hleneq : ((List.range colCount).filter (fun i => (st.1.getD i none).isNone)).length =
      ((List.range colCount).filter (fun j => !(st.2.getD j false))).length := by omega
  have hguard : (((List.range colCount).filter (fun i => (st.1.getD i none).isNone)).length ==
      ((List.range colCount).filter (fun j => !(st.2.getD j false))).length) = true := by
    rw [beq_iff_eq]
    exact hleneq
  have helimU : elimination st colCount =
      (if (((List.range colCount).filter (fun i => (st.1.getD i none).isNone)).length ==
          ((List.range colCount).filter (fun j => !(st.2.getD j false))).length) = true then
        assignPairs st.1
          (((List.range colCount).filter (fun i => (st.1.getD i none).isNone)).zip
            ((List.range colCount).filter (fun j => !(st.2.getD j false))))
      else st.1) := rfl
  have helim : elimination st colCount = assignPairs st.1
      (((List.range colCount).filter (fun i => (st.1.getD i none).isNone)).zip
        ((List.range colCount).filter (fun j => !(st.2.getD j false)))) := by
    rw [helimU, if_pos hguard]
  have hfst : ((((List.range colCount).filter (fun i => (st.1.getD i none).isNone)).zip
      ((List.range colCount).filter (fun j => !(st.2.getD j false)))).map Prod.fst) =
      (List.range colCount).filter (fun i => (st.1.getD i none).isNone) :=
    List.map_fst_zip _ _ (le_of_eq hleneq)
  have hsnd : ((((List.range colCount).filter (fun i => (st.1.getD i none).isNone)).zip
      ((List.range colCount).filter (fun j => !(st.2.getD j false)))).map Prod.snd) =
      (List.range colCount).filter (fun j => !(st.2.getD j false)) :=
    List.map_snd_zip _ _ (le_of_eq hleneq.symm)
  have hpairs : ∀ p ∈ (((List.range colCount).filter
      (fun i => (st.1.getD i none).isNone)).zip
      ((List.range colCount).filter (fun j => !(st.2.getD j false)))),
      p.1 < st.1.length ∧ st.1.getD p.1 none = none := by
    rintro ⟨p1, p2⟩ hp
    obtain ⟨hp1, _⟩ := List.of_mem_zip hp
    obtain ⟨hp1r, hp1n⟩ := List.mem_filter.mp hp1
    refine ⟨by rw [hlen1]; exact List.mem_range.mp hp1r, ?_⟩
    exact Option.isNone_iff_eq_none.mp hp1n
  have hndfst : ((((List.range colCount).filter (fun i => (st.1.getD i none).isNone)).zip
      ((List.range colCount).filter (fun j => !(st.2.getD j false)))).map Prod.fst).Nodup := by
    rw [hfst]
    exact (List.nodup_range _).filter _
  obtain ⟨hlen, hperm, hsome, hpairsSome⟩ := assignPairs_spec _ st.1 hpairs hndfst
  rw [← helim] at hlen hperm hsome hpairsSome
  refine ⟨by rw [hlen, hlen1], ?_, ?_⟩
  · rw [hsnd] at hperm
    apply hperm.trans
    apply perm_range_of_nodup
    · rw [List.nodup_append]
      refine ⟨hnd, (List.nodup_range _).filter _, ?_⟩
      intro x hx hx2
      obtain ⟨hxr, hxn⟩ := List.mem_filter.mp hx2
      have := (hiff x (List.mem_range.mp hxr)).mpr hx
      rw [this] at hxn
      simp at hxn
    · intro x hx
      rcases List.mem_append.mp hx with hx | hx
      · exact hbound x hx
      · exact List.mem_range.mp (List.mem_filter.mp hx).1
    · rw [List.length_append]
      omega
  · intro i hi
    rcases hoi : st.1.getD i none with _ | v
    · have himem : i ∈ (List.range colCount).filter
          (fun i => (st.1.getD i none).isNone) := by
        rw [List.mem_filter]
        exact ⟨List.mem_range.mpr hi, by rw [hoi]; rfl⟩
      rw [← hfst] at himem
      obtain ⟨p, hp, hpeq⟩ := List.mem_map.mp himem
      have := hpairsSome p hp
      rw [hpeq] at this
      exact this
    · apply hsome
      rw [hoi]
      rfl


/-- The identity fill keeps the length. -/
theorem fillIdentity_length (m : List (Option Nat)) : (fillIdentity m).length = m.length := by
  unfold fillIdentity
  rw [List.length_map, List.length_range]

/-- When every entry is already assigned, the identity fill changes nothing:
it returns exactly the assigned values. -/
theorem fillIdentity_of_isSome : ∀ (m : List (Option Nat)),
    (∀ i, i < m.length → (m.getD i none).isSome) → fillIdentity m = m.filterMap id := by
  intro m
  induction m with
  | nil => intro _; rfl
  | cons a m ih =>
    intro h
    rcases ha : a with _ | x
    · exfalso
      have h0 := h 0 (by simp)
      rw [ha] at h0
      simp at h0
    · subst ha
      have htail : ∀ i, i < m.length → (m.getD i none).isSome := fun i hi =>
        h (i + 1) (by simpa using hi)
      have ihm := ih htail
      show fillIdentity (some x :: m) = x :: m.filterMap id
      unfold fillIdentity
      rw [show (some x :: m).length = m.length + 1 from rfl, List.range_succ_eq_map,
        List.map_cons, List.map_map]
      rw [show (((some x :: m).getD 0 none).getD 0) = x from rfl]
      rw [← ihm]
      unfold fillIdentity
      have hcongr : (List.range m.length).map
          ((fun i => ((some x :: m).getD i none).getD i) ∘ Nat.succ) =
          (List.range m.length).map (fun i => (m.getD i none).getD i) := by
        apply List.map_congr_left
        intro i hi
        have hi2 : i < m.length := List.mem_range.mp hi
        have hsome := htail i hi2
        rcases hv : m.getD i none with _ | v
        · rw [hv] at hsome
          simp at hsome
        · simp only [Function.comp]
          rw [show (some x :: m).getD (i + 1) none = m.getD i none from rfl, hv]
          rfl
      rw [hcongr]

/-- The evidence-stage mapping of `inferColumnMapping`: correct length, the
assignments form a permutation of all column indices, and every entry is
assigned. -/
theorem mappingAfterElimination_spec (origRows hashRows : List (List String))
    (colCount : Nat) :
    (mappingAfterElimination origRows hashRows colCount).length = colCount ∧
    ((mappingAfterElimination origRows hashRows colCount).filterMap id).Perm
      (List.range colCount) ∧
    (∀ i, i < colCount →
      ((mappingAfterElimination origRows hashRows colCount).getD i none).isSome) :=
  elimination_spec (passB_inv _ _ _ _ (passA_inv _ _ _))

/-- A decomposition of `range n` around an element determines the part before
it: it is `range a`. -/
theorem range_decomp_pre {n a : Nat} {l₁ l₂ : List Nat}
    (h : List.range n = l₁ ++ a :: l₂) : l₁ = List.range a := by
  have hlen : l₁.length < n := by
    have hl := congrArg List.length h
    rw [List.length_range, List.length_append, List.length_cons] at hl
    omega
  have ha : a = l₁.length := by
    have h1 : (List.range n)[l₁.length]? = some l₁.length := by
      rw [List.getElem?_range hlen]
    rw [h] at h1
    rw [List.getElem?_append_right (le_refl l₁.length)] at h1
    simp at h1
    omega
  have htake : l₁ = (List.range n).take l₁.length := by
    rw [h, List.take_left]
  rw [htake, List.take_range, ha, min_eq_left (le_of_lt hlen)]

/-- Zeta-expanded form of `inferColumnMapping`, for case analysis. -/
theorem inferColumnMapping_unfold (origDB hashDB : Database) (ot ht : String) :
    inferColumnMapping origDB hashDB ot ht =
      (if (getColumnCount origDB ot != getColumnCount hashDB ht) = true
       then List.range (getColumnCount origDB ot)
       else inferColumnMappingCore (getFirstNRows origDB ot 200)
         (getFirstNRows hashDB ht 200) (getColumnCount origDB ot)) := rfl

/-- C10: after Pass B the number of unmapped reference columns equals the
number of unused target columns, so the elimination pass assigns every
remaining column; the identity fill then changes nothing, and on equal column
counts the computed mapping is a full permutation of the column indices. -/
theorem claim_C10 (origRows hashRows : List (List String)) (colCount : Nat) :
    ((List.range colCount).filter (fun i =>
      ((passB (buildColumnVectors origRows colCount) (buildColumnVectors hashRows colCount)
        colCount (passA (buildColumnVectors origRows colCount)
        (buildColumnVectors hashRows colCount) colCount)).1.getD i none).isNone)).length =
    ((List.range colCount).filter (fun j =>
      !((passB (buildColumnVectors origRows colCount) (buildColumnVectors hashRows colCount)
        colCount (passA (buildColumnVectors origRows colCount)
        (buildColumnVectors hashRows colCount) colCount)).2.getD j false))).length ∧
    (∀ i, i < colCount →
      ((mappingAfterElimination origRows hashRows colCount).getD i none).isSome) ∧
    inferColumnMappingCore origRows hashRows colCount =
      (mappingAfterElimination origRows hashRows colCount).filterMap id ∧
    (inferColumnMappingCore origRows hashRows colCount).Perm (List.range colCount) := by
  have hinv := passB_inv (buildColumnVectors origRows colCount)
    (buildColumnVectors hashRows colCount) colCount _
    (passA_inv (buildColumnVectors origRows colCount)
      (buildColumnVectors hashRows colCount) colCount)
  obtain ⟨hc1, hc2⟩ := MapInv_counts hinv
  obtain ⟨hlen, hperm, hsome⟩ := mappingAfterElimination_spec origRows hashRows colCount
  have hfill : inferColumnMappingCore origRows hashRows colCount =
      (mappingAfterElimination origRows hashRows colCount).filterMap id := by
    unfold inferColumnMappingCore
    apply fillIdentity_of_isSome
    intro i hi
    exact hsome i (by rw [← hlen]; exact hi)
  refine ⟨by omega, hsome, hfill, ?_⟩
  rw [hfill]
  exact hperm

/-- C10 witness: on the concrete two-column pair the computed core mapping is
a permutation of the two column indices. -/
theorem claim_C10_witness :
    (inferColumnMappingCore [["1", "Alice"], ["2", "Bob"]] [["Alice", "1"], ["Bob", "2"]]
      2).Perm (List.range 2) :=
  (claim_C10 [["1", "Alice"], ["2", "Bob"]] [["Alice", "1"], ["Bob", "2"]] 2).2.2.2

/-- C5: the returned mapping always has exactly the reference's column count;
and the entries assigned by the evidence-based passes (everything before the
identity fill) are pairwise distinct target indices below the column count. -/
theorem claim_C5 (origDB hashDB : Database) (origTable hashTable : String) :
    (inferColumnMapping origDB hashDB origTable hashTable).length =
      getColumnCount origDB origTable ∧
    (∀ origRows hashRows colCount,
      ((mappingAfterElimination origRows hashRows colCount).filterMap id).Nodup ∧
      ∀ j ∈ (mappingAfterElimination origRows hashRows colCount).filterMap id,
        j < colCount) := by
  constructor
  · rw [inferColumnMapping_unfold]
    by_cases h : (getColumnCount origDB origTable != getColumnCount hashDB hashTable) = true
    · rw [if_pos h, List.length_range]
    · rw [if_neg h]
      obtain ⟨hlen, _, _⟩ := mappingAfterElimination_spec
        (getFirstNRows origDB origTable 200) (getFirstNRows hashDB hashTable 200)
        (getColumnCount origDB origTable)
      unfold inferColumnMappingCore
      rw [fillIdentity_length, hlen]
  · intro origRows hashRows colCount
    obtain ⟨_, hperm, _⟩ := mappingAfterElimination_spec origRows hashRows colCount
    constructor
    · exact hperm.nodup_iff.mpr (List.nodup_range _)
    · intro j hj
      exact List.mem_range.mp (hperm.subset hj)

/-- C5 witness: on the concrete pair the returned mapping has the reference's
column count. -/
theorem claim_C5_witness :
    (inferColumnMapping exODB exHDB "users" "h1").length = getColumnCount exODB "users" :=
  (claim_C5 exODB exHDB "users" "h1").1

/-- C6: for a reference column left unmapped by Pass A, Pass B assigns a
still-unused target column only when its similarity strictly exceeds 0.3,
choosing the highest-similarity unused target and resolving ties in favour of
the lowest index; when no unused target exceeds 0.3 the column is left
unmapped. -/
theorem claim_C6 (origCols hashCols : List (List String)) (colCount : Nat)
    (st : List (Option Nat) × List Bool) (i : Nat)
    (hunmapped : st.1.getD i none = none) :
    (∀ j s, passBSelect origCols hashCols st.2 colCount i = (some j, s) →
       j < colCount ∧ st.2.getD j false = false ∧
       s = jaccardSimilarity (origCols.getD i []) (hashCols.getD j []) ∧
       (3:ℚ)/10 < jaccardSimilarity (origCols.getD i []) (hashCols.getD j []) ∧
       (∀ j2, j2 < colCount → st.2.getD j2 false = false →
          jaccardSimilarity (origCols.getD i []) (hashCols.getD j2 []) ≤
            jaccardSimilarity (origCols.getD i []) (hashCols.getD j [])) ∧
       (∀ j2, j2 < j → st.2.getD j2 false = false →
          jaccardSimilarity (origCols.getD i []) (hashCols.getD j2 []) <
            jaccardSimilarity (origCols.getD i []) (hashCols.getD j [])) ∧
       passBStep origCols hashCols colCount st i = (st.1.set i (some j), st.2.set j true)) ∧
    ((∀ j, j < colCount → st.2.getD j false = false →
        jaccardSimilarity (origCols.getD i []) (hashCols.getD j []) ≤ (3:ℚ)/10) →
      passBStep origCols hashCols colCount st i = st) := by
  have h310 : mkRat 3 10 = (3:ℚ)/10 := by
    rw [Rat.mkRat_eq_div]
    norm_num
  have hnotsome : ¬ ((st.1.getD i none).isSome = true) := by
    rw [hunmapped]
    simp
  have hstep : passBStep origCols hashCols colCount st i =
      (match (passBSelect origCols hashCols st.2 colCount i).1 with
       | some j => (st.1.set i (some j), st.2.set j true)
       | none => st) := by
    unfold passBStep
    rw [if_neg hnotsome]
  constructor
  · intro j s hsel
    rcases bestScanLoop_spec
        (fun j => jaccardSimilarity (origCols.getD i []) (hashCols.getD j []))
        (fun j => st.2.getD j false) (mkRat 3 10) (List.range colCount) with
      ⟨hb, _⟩ | ⟨r, pre, post, hb, hdec, hskip, htr, hpre, hpost⟩
    · rw [show passBSelect origCols hashCols st.2 colCount i =
          bestScanLoop (fun j => jaccardSimilarity (origCols.getD i []) (hashCols.getD j []))
            (fun j => st.2.getD j false) (mkRat 3 10) (List.range colCount) from rfl, hb]
        at hsel
      simp at hsel
    · rw [show passBSelect origCols hashCols st.2 colCount i =
          bestScanLoop (fun j => jaccardSimilarity (origCols.getD i []) (hashCols.getD j []))
            (fun j => st.2.getD j false) (mkRat 3 10) (List.range colCount) from rfl, hb]
        at hsel
      have hrj : r = j ∧ jaccardSimilarity (origCols.getD i []) (hashCols.getD j []) = s := by
        have h1 : (some r = some j) ∧
            jaccardSimilarity (origCols.getD i []) (hashCols.getD r []) = s := by
          constructor
          · exact congrArg Prod.fst hsel
          · exact congrArg Prod.snd hsel
        obtain ⟨hx, hy⟩ := h1
        have : r = j := by simpa using hx
        subst this
        exact ⟨rfl, hy⟩
      obtain ⟨rfl, hs⟩ := hrj
      have hpre2 : pre = List.range r := range_decomp_pre hdec
      refine ⟨List.mem_range.mp (by rw [hdec]; simp), hskip, hs.symm, by rw [← h310]; exact htr,
        ?_, ?_, ?_⟩
      · intro j2 hj2 hj2u
        have : j2 ∈ List.range colCount := List.mem_range.mpr hj2
        rw [hdec] at this
        rcases List.mem_append.mp this with hx | hx
        · exact le_of_lt (hpre j2 hx hj2u)
        · rcases List.mem_cons.mp hx with rfl | hx
          · exact le_refl _
          · exact hpost j2 hx hj2u
      · intro j2 hj2 hj2u
        have : j2 ∈ pre := by
          rw [hpre2]
          exact List.mem_range.mpr hj2
        exact hpre j2 this hj2u
      · rw [hstep]
        rw [show passBSelect origCols hashCols st.2 colCount i =
          bestScanLoop (fun j => jaccardSimilarity (origCols.getD i []) (hashCols.getD j []))
            (fun j => st.2.getD j false) (mkRat 3 10) (List.range colCount) from rfl, hb]
  · intro hall
    rcases bestScanLoop_spec
        (fun j => jaccardSimilarity (origCols.getD i []) (hashCols.getD j []))
        (fun j => st.2.getD j false) (mkRat 3 10) (List.range colCount) with
      ⟨hb, _⟩ | ⟨r, pre, post, hb, hdec, hskip, htr, hpre, hpost⟩
    · rw [hstep]
      rw [show passBSelect origCols hashCols st.2 colCount i =
        bestScanLoop (fun j => jaccardSimilarity (origCols.getD i []) (hashCols.getD j []))
          (fun j => st.2.getD j false) (mkRat 3 10) (List.range colCount) from rfl, hb]
    · exfalso
      have hrlt : r < colCount := List.mem_range.mp (by rw [hdec]; simp)
      have := hall r hrlt hskip
      rw [← h310] at this
      exact absurd htr (not_lt_of_le this)

/-- C6 witness: with a single unused identical column the similarity is 1,
above 0.3, so Pass B assigns target 0 to reference column 0. -/
theorem claim_C6_witness :
    passBStep [["a"]] [["a"]] 1 ([none], [false]) 0 = ([some 0], [true]) :=
  ((claim_C6 [["a"]] [["a"]] 1 ([none], [false]) 0 (by decide)).1 0 1
    (by decide)).2.2.2.2.2.2

end PcrHashRename
